import Mathlib

/-!
Verification of the mission-architecture simulation engine
(`backend/app/core/simulator.py`) against its specification.

The engine converts an architecture (components + directed data flows) into
a directed graph, propagates a node compromise along forward edges, scores
mission health as the percentage of healthy components, ranks components by
a composite criticality score, and renders a narrative attack path plus a
one-line explanation.

Modelling conventions:
  * Python `float` values are modelled as `ℚ` (all quantities the engine
    computes are exact decimals; Python's `round(x, 2)` and `"%.1f"`
    formatting round half-to-even, modelled exactly on `ℚ`).
  * Python exceptions (`SimulatorError`) are modelled with `Except String`,
    carrying the exact message the code raises.
  * A NetworkX `DiGraph` is modelled as insertion-ordered association lists
    for nodes and edges; `add_node`/`add_edge` on an existing key update the
    stored attributes in place (last write wins), matching `dict` semantics.
    `add_edge` inserts missing endpoint nodes, as NetworkX does.
  * `nx.descendants` is modelled as a bounded fixpoint iteration of the
    one-step successor expansion; iterating `edges.length` times is proved
    to reach the set of reachable nodes.
  * A Python `set` is modelled as a `Finset String`.  CPython iterates a
    set in hash-table order: an order determined by the stored elements,
    independent of the order in which they were discovered or inserted
    (string hashing is randomised per process).  `pySetToList` models this
    canonically as the ascending lexicographic listing of the elements;
    the essential property preserved is that the order is a function of the
    set's contents only, with no relation to discovery order.
-/

namespace MissionSim

/-- `ComponentSchema` (Pydantic model consumed by the simulator): string id,
display name, category tag, planner-assigned criticality, 2D canvas
position (passthrough only). -/
structure ComponentSchema where
  id : String
  name : String
  type : String
  criticality : Int
  position : ℚ × ℚ
deriving DecidableEq

/-- `DataFlowSchema`: directed data flow between two component ids with
optional metadata. -/
structure DataFlowSchema where
  id : String
  source : String
  target : String
  data_type : Option String := none
  cia_requirement : Option String := none
  latency_sensitivity : Option String := none
deriving DecidableEq

/-- `ArchitectureSchema`: id, name, component list, flow list. -/
structure ArchitectureSchema where
  id : Option Int
  name : String
  components : List ComponentSchema
  flows : List DataFlowSchema
deriving DecidableEq

/-- Attributes stored on a graph node.  NetworkX stores an attribute dict;
a node created implicitly by `add_edge` has an empty dict, hence the
`Option` fields.  Nodes created from components always carry all four. -/
structure NodeAttrs where
  name : Option String := none
  type : Option String := none
  criticality : Option Int := none
  position : Option (ℚ × ℚ) := none
deriving DecidableEq

/-- Attributes stored on a graph edge (`flow_id`, `data_type`,
`cia_requirement`, `latency_sensitivity`). -/
structure EdgeAttrs where
  flow_id : String
  data_type : Option String := none
  cia_requirement : Option String := none
  latency_sensitivity : Option String := none
deriving DecidableEq

/-- Model of `nx.DiGraph`: insertion-ordered association lists of nodes and
of edges keyed by the ordered `(source, target)` pair. -/
structure DiGraph where
  nodes : List (String × NodeAttrs)
  edges : List ((String × String) × EdgeAttrs)
deriving DecidableEq

/-- The node keys of the graph, in insertion order. -/
def DiGraph.nodeIds (g : DiGraph) : List String := g.nodes.map Prod.fst

/-- The edge keys of the graph, in insertion order. -/
def DiGraph.edgeKeys (g : DiGraph) : List (String × String) := g.edges.map Prod.fst

/-- `graph.number_of_nodes()`. -/
def DiGraph.numberOfNodes (g : DiGraph) : ℕ := g.nodes.length

/-- `graph.number_of_edges()`. -/
def DiGraph.numberOfEdges (g : DiGraph) : ℕ := g.edges.length

/-- `nid in graph` (NetworkX node containment). -/
def DiGraph.hasNode (g : DiGraph) (nid : String) : Bool := g.nodeIds.contains nid

/-- `graph.nodes[nid]` attribute lookup. -/
def DiGraph.getAttrs (g : DiGraph) (nid : String) : Option NodeAttrs :=
  (g.nodes.find? (fun p => p.1 == nid)).map Prod.snd

/-- `graph.nodes[nid].get("name", nid)` (callers only use it on existing
nodes; a missing node falls back to the id as well). -/
def DiGraph.getName (g : DiGraph) (nid : String) : String :=
  match g.getAttrs nid with
  | some a => a.name.getD nid
  | none => nid

/-- `graph.nodes[nid].get("type", dflt)`. -/
def DiGraph.getType (g : DiGraph) (nid : String) (dflt : String) : String :=
  match g.getAttrs nid with
  | some a => a.type.getD dflt
  | none => dflt

/-- `graph.nodes[nid].get("criticality", 5)`. -/
def DiGraph.getCriticality (g : DiGraph) (nid : String) : Int :=
  match g.getAttrs nid with
  | some a => a.criticality.getD 5
  | none => 5

/-- Edge-attribute lookup for the ordered pair `(u, v)`. -/
def DiGraph.edgeLookup (g : DiGraph) (u v : String) : Option EdgeAttrs :=
  (g.edges.find? (fun e => e.1 == (u, v))).map Prod.snd

/-- `graph.successors(u)`: targets of edges whose source is `u`, in edge
insertion order (NetworkX adjacency-dict order). -/
def DiGraph.successors (g : DiGraph) (u : String) : List String :=
  (g.edges.filter (fun e => e.1.1 == u)).map (fun e => e.1.2)

/-- `graph.in_degree(v)`: number of distinct direct predecessors — edges are
keyed by their ordered pair, so this is the number of stored edges into `v`. -/
def DiGraph.inDegree (g : DiGraph) (v : String) : ℕ :=
  (g.edges.filter (fun e => e.1.2 == v)).length

/-- `graph.add_node(nid, **attrs)`: update the attributes in place if the
node exists, else append a new node. -/
def addNode (g : DiGraph) (nid : String) (a : NodeAttrs) : DiGraph :=
  if nid ∈ g.nodeIds then
    { g with nodes := g.nodes.map (fun p => if p.1 = nid then (nid, a) else p) }
  else
    { g with nodes := g.nodes ++ [(nid, a)] }

/-- The empty attribute dict NetworkX gives an implicitly created node. -/
def emptyAttrs : NodeAttrs := {}

/-- NetworkX `add_edge` first ensures both endpoints exist as nodes (with an
empty attribute dict when created implicitly). -/
def ensureNode (g : DiGraph) (nid : String) : DiGraph :=
  if nid ∈ g.nodeIds then g else { g with nodes := g.nodes ++ [(nid, emptyAttrs)] }

/-- `graph.add_edge(u, v, **attrs)`: ensure endpoints, then update the edge
keyed `(u, v)` in place if present (last write wins), else append it. -/
def addEdge (g : DiGraph) (u v : String) (a : EdgeAttrs) : DiGraph :=
  let g' := ensureNode (ensureNode g u) v
  if (u, v) ∈ g'.edgeKeys then
    { g' with edges := g'.edges.map (fun e => if e.1 = (u, v) then ((u, v), a) else e) }
  else
    { g' with edges := g'.edges ++ [((u, v), a)] }

/-- Node attributes stored for a component by `_build_graph`. -/
def mkNodeAttrs (c : ComponentSchema) : NodeAttrs :=
  { name := some c.name, type := some c.type, criticality := some c.criticality,
    position := some c.position }

/-- Edge attributes stored for a flow by `_build_graph`. -/
def mkEdgeAttrs (f : DataFlowSchema) : EdgeAttrs :=
  { flow_id := f.id, data_type := f.data_type, cia_requirement := f.cia_requirement,
    latency_sensitivity := f.latency_sensitivity }

/-- First loop of `_build_graph`: one `add_node` per component, in list order. -/
def addComponents : DiGraph → List ComponentSchema → DiGraph
  | g, [] => g
  | g, c :: cs => addComponents (addNode g c.id (mkNodeAttrs c)) cs

/-- Error message raised for a flow with an undeclared source. -/
def unknownSourceMsg (f : DataFlowSchema) : String :=
  "Data flow '" ++ f.id ++ "' references unknown source component '" ++ f.source ++ "'."

/-- Error message raised for a flow with an undeclared target. -/
def unknownTargetMsg (f : DataFlowSchema) : String :=
  "Data flow '" ++ f.id ++ "' references unknown target component '" ++ f.target ++ "'."

/-- Second loop of `_build_graph`: validate both endpoints of each flow
against the declared component ids, then `add_edge`. -/
def addFlows (ids : List String) : DiGraph → List DataFlowSchema → Except String DiGraph
  | g, [] => .ok g
  | g, f :: fs =>
    if f.source ∉ ids then .error (unknownSourceMsg f)
    else if f.target ∉ ids then .error (unknownTargetMsg f)
    else addFlows ids (addEdge g f.source f.target (mkEdgeAttrs f)) fs

/-- `_build_graph`: nodes from the component list, then validated edges from
the flow list. -/
def buildGraph (arch : ArchitectureSchema) : Except String DiGraph :=
  addFlows (arch.components.map (fun c => c.id)) (addComponents ⟨[], []⟩ arch.components)
    arch.flows

/-- The simulator instance: the stored architecture and the graph built once
at construction. -/
structure Simulator where
  architecture : ArchitectureSchema
  graph : DiGraph

/-- Error message raised for an empty component list. -/
def emptyArchMsg : String := "Architecture must contain at least one component."

/-- `MissionArchitectureSimulator.__init__`: reject an empty component list
immediately, then build the graph once. -/
def mkSimulator (arch : ArchitectureSchema) : Except String Simulator :=
  if arch.components.isEmpty then .error emptyArchMsg
  else (buildGraph arch).map (fun g => ⟨arch, g⟩)

/-! ### Reachability (model of `nx.descendants`) -/

/-- One expansion step: a set together with all direct successors of its
members. -/
def stepSet (g : DiGraph) (s : Finset String) : Finset String :=
  s ∪ s.biUnion (fun u => (g.successors u).toFinset)

/-- Iterated expansion from a starting set. -/
def reachIter (g : DiGraph) (s : Finset String) : ℕ → Finset String
  | 0 => s
  | n + 1 => stepSet g (reachIter g s n)

/-- `nx.descendants(graph, u)`: all nodes reachable from `u`, excluding `u`
itself.  Iterating the expansion `edges.length` times reaches the fixpoint
(proved below). -/
def descendantsOf (g : DiGraph) (u : String) : Finset String :=
  reachIter g {u} g.edges.length \ {u}

/-- The edge relation of the graph: there is a stored edge from `u` to `v`. -/
def EdgeRel (g : DiGraph) (u v : String) : Prop := (u, v) ∈ g.edgeKeys

/-- `Reaches g u v`: `v` is reachable from `u` by following directed edges
forward, any number of hops (zero included). -/
def Reaches (g : DiGraph) (u v : String) : Prop :=
  Relation.ReflTransGen (EdgeRel g) u v

/-- `propagate_compromise`: empty set for an absent start node, otherwise
the descendants together with the start node itself. -/
def Simulator.propagate_compromise (sim : Simulator) (compromised_node_id : String) :
    Finset String :=
  if sim.graph.hasNode compromised_node_id then
    descendantsOf sim.graph compromised_node_id ∪ {compromised_node_id}
  else ∅

/-! ### Scoring -/

/-- Python's `round` ties-to-even rounding of a rational to an integer. -/
def rndHalfEven (q : ℚ) : ℤ :=
  if q - ⌊q⌋ < 1/2 then ⌊q⌋
  else if 1/2 < q - ⌊q⌋ then ⌊q⌋ + 1
  else if ⌊q⌋ % 2 = 0 then ⌊q⌋ else ⌊q⌋ + 1

/-- Python `round(q, 2)`. -/
def pyRound2 (q : ℚ) : ℚ := (rndHalfEven (q * 100) : ℚ) / 100

/-- `calculate_mission_score`: percentage of healthy components, with the
healthy count clamped to `[0, total]` and the result rounded to two decimal
places; `0.0` defensively when the graph has no nodes. -/
def Simulator.calculate_mission_score (sim : Simulator) (affected_ids : Finset String) : ℚ :=
  let total := sim.graph.numberOfNodes
  if total = 0 then 0
  else
    let healthy : ℤ := (total : ℤ) - (affected_ids.card : ℤ)
    let clamped : ℤ := max 0 (min healthy (total : ℤ))
    pyRound2 ((clamped : ℚ) / (total : ℚ) * 100)

/-! ### Criticality ranking -/

/-- One ranking result row. -/
structure CriticalityRankEntry where
  component_id : String
  component_name : String
  component_type : String
  criticality_score : ℚ
  affected : Bool
deriving DecidableEq

/-- Strict descending comparison used while sorting ranking entries:
`a` must stay ahead of `b` iff `a`'s `(composite, descendant_count)` key is
strictly lexicographically greater. -/
def keyGT (a b : ℚ × ℕ) : Prop := b.1 < a.1 ∨ (a.1 = b.1 ∧ b.2 < a.2)

instance (a b : ℚ × ℕ) : Decidable (keyGT a b) := by unfold keyGT; infer_instance

/-- The sort key of an internal ranking triple `(composite, desc_count, id)`. -/
def entryKey (e : ℚ × ℕ × String) : ℚ × ℕ := (e.1, e.2.1)

/-- Insert a triple into a descending-sorted list, after every element whose
key is strictly greater (so that elements with equal keys keep their
original relative order — Python's sort is stable). -/
def insEntry (x : ℚ × ℕ × String) : List (ℚ × ℕ × String) → List (ℚ × ℕ × String)
  | [] => [x]
  | y :: ys => if keyGT (entryKey y) (entryKey x) then y :: insEntry x ys else x :: y :: ys

/-- Stable descending sort by `(composite, descendant_count)`; extensionally
equal to Python's `list.sort(key=lambda t: (t[0], t[1]), reverse=True)`,
which is the stable descending sort for the same key. -/
def sortEntriesDesc : List (ℚ × ℕ × String) → List (ℚ × ℕ × String)
  | [] => []
  | x :: xs => insEntry x (sortEntriesDesc xs)

/-- `rank_criticality`: composite = user criticality + in-degree, tie-broken
by descendant count, sorted descending, truncated to `top_n` (Python default
10); `affected_ids=None` behaves as the empty set. -/
def Simulator.rank_criticality (sim : Simulator) (affected_ids : Option (Finset String))
    (top_n : ℕ) : List CriticalityRankEntry :=
  let affected := affected_ids.getD ∅
  let entries : List (ℚ × ℕ × String) := sim.graph.nodes.map (fun p =>
    let user_crit : Int := p.2.criticality.getD 5
    let in_deg : ℕ := sim.graph.inDegree p.1
    let desc_count : ℕ := (descendantsOf sim.graph p.1).card
    (((user_crit + (in_deg : Int) : Int) : ℚ), desc_count, p.1))
  let sorted := sortEntriesDesc entries
  (sorted.take top_n).map (fun e =>
    { component_id := e.2.2,
      component_name := sim.graph.getName e.2.2,
      component_type := sim.graph.getType e.2.2 ("Unknown"),
      criticality_score := e.1,
      affected := e.2.2 ∈ affected })

/-! ### Attack-path narrative -/

/-- The inner `for successor in graph.successors(current)` loop of the BFS in
`_build_attack_path`: walks the successor list, and for each successor not
yet visited and inside the affected set, marks it visited and records the
discovery pair `(successor, current)`.  Returns the updated visited set and
the discovery pairs in order; the nodes enqueued are exactly the pairs'
first components. -/
def processSuccs (A : Finset String) (current : String) :
    List String → Finset String → Finset String × List (String × String)
  | [], visited => (visited, [])
  | v :: vs, visited =>
    if v ∉ visited ∧ v ∈ A then
      let r := processSuccs A current vs (insert v visited)
      (r.1, (v, current) :: r.2)
    else processSuccs A current vs visited

theorem processSuccs_fst_eq (A : Finset String) (c : String) (l : List String)
    (visited : Finset String) :
    (processSuccs A c l visited).1 = visited ∪ ((processSuccs A c l visited).2.map Prod.fst).toFinset := by
  induction l generalizing visited with
  | nil => simp [processSuccs]
  | cons v vs ih =>
    by_cases h : v ∉ visited ∧ v ∈ A
    · simp only [processSuccs, if_pos h, List.map_cons, List.toFinset_cons]
      rw [ih]
      ext x
      simp only [Finset.mem_union, Finset.mem_insert, List.mem_toFinset]
      tauto
    · simpa only [processSuccs, if_neg h] using ih visited

theorem processSuccs_mem (A : Finset String) (c : String) (l : List String)
    (visited : Finset String) :
    ∀ p ∈ (processSuccs A c l visited).2, p.1 ∈ A ∧ p.1 ∉ visited ∧ p.1 ∈ l ∧ p.2 = c := by
  induction l generalizing visited with
  | nil => simp [processSuccs]
  | cons v vs ih =>
    intro p hp
    by_cases h : v ∉ visited ∧ v ∈ A
    · simp only [processSuccs, if_pos h] at hp
      rcases List.mem_cons.mp hp with hp | hp
      · subst hp; exact ⟨h.2, h.1, List.mem_cons_self _ _, rfl⟩
      · have := ih (insert v visited) p hp
        refine ⟨this.1, ?_, List.mem_cons_of_mem _ this.2.2.1, this.2.2.2⟩
        intro hx
        exact this.2.1 (Finset.mem_insert_of_mem hx)
    · simp only [processSuccs, if_neg h] at hp
      have := ih visited p hp
      exact ⟨this.1, this.2.1, List.mem_cons_of_mem _ this.2.2.1, this.2.2.2⟩

theorem processSuccs_nodup (A : Finset String) (c : String) (l : List String)
    (visited : Finset String) :
    ((processSuccs A c l visited).2.map Prod.fst).Nodup := by
  induction l generalizing visited with
  | nil => simp [processSuccs]
  | cons v vs ih =>
    by_cases h : v ∉ visited ∧ v ∈ A
    · simp only [processSuccs, if_pos h, List.map_cons, List.nodup_cons]
      refine ⟨?_, ih (insert v visited)⟩
      intro hmem
      rcases List.mem_map.mp hmem with ⟨p, hp, hpv⟩
      have := processSuccs_mem A c vs (insert v visited) p hp
      exact this.2.1 (by rw [hpv]; exact Finset.mem_insert_self v visited)
    · simpa only [processSuccs, if_neg h] using ih visited

theorem processSuccs_card (A : Finset String) (c : String) (l : List String)
    (visited : Finset String) :
    (A \ (processSuccs A c l visited).1).card + (processSuccs A c l visited).2.length
      = (A \ visited).card := by
  have hfst := processSuccs_fst_eq A c l visited
  set adds := (processSuccs A c l visited).2.map Prod.fst with hadds
  have hsub : adds.toFinset ⊆ A \ visited := by
    intro x hx
    rcases List.mem_map.mp (List.mem_toFinset.mp hx) with ⟨p, hp, hpx⟩
    have := processSuccs_mem A c l visited p hp
    exact Finset.mem_sdiff.mpr ⟨hpx ▸ this.1, hpx ▸ this.2.1⟩
  have hnd : adds.Nodup := processSuccs_nodup A c l visited
  have hdiff : A \ (processSuccs A c l visited).1 = (A \ visited) \ adds.toFinset := by
    rw [hfst]; ext x
    simp only [Finset.mem_sdiff, Finset.mem_union, List.mem_toFinset]
    tauto
  have hlen : adds.toFinset.card = (processSuccs A c l visited).2.length := by
    rw [List.card_toFinset, hnd.dedup, hadds, List.length_map]
  rw [hdiff, Finset.card_sdiff hsub, hlen]
  have hle := Finset.card_le_card hsub
  omega

/-- The BFS loop of `_build_attack_path`: dequeue, expand via the successor
loop, enqueue the newly discovered nodes, and collect the discovery pairs
in order. -/
def bfsAux (g : DiGraph) (A : Finset String) (visited : Finset String) :
    List String → List (String × String)
  | [] => []
  | current :: rest =>
    let r := processSuccs A current (g.successors current) visited
    r.2 ++ bfsAux g A r.1 (rest ++ r.2.map Prod.fst)
termination_by queue => (A \ visited).card + queue.length
decreasing_by
  have h := processSuccs_card A current (g.successors current) visited
  simp only [List.length_append, List.length_map, List.length_cons]
  omega

/-- One numbered propagation step line. -/
def stepText (g : DiGraph) (n : ℕ) (p : String × String) : String :=
  "Step " ++ toString n ++ ": " ++ g.getType p.1 ("Component") ++ " '" ++ g.getName p.1 ++
    "' receives corrupted data from '" ++ g.getName p.2 ++ "'"

/-- Number the discovery pairs consecutively starting at `n`. -/
def numberFrom (g : DiGraph) : ℕ → List (String × String) → List String
  | _, [] => []
  | n, p :: ps => stepText g n p :: numberFrom g (n + 1) ps

/-- The fixed first line of the attack path. -/
def step1Text (g : DiGraph) (target_id : String) : String :=
  "Step 1: " ++ g.getType target_id ("Component") ++ " '" ++ g.getName target_id ++
    "' directly compromised (integrity loss)"

/-- The final summary line, present when more than one component is affected. -/
def summaryText (n total : ℕ) : String :=
  "Step " ++ toString n ++ ": Mission objective degraded due to " ++ toString total ++
    " compromised components"

/-- `_build_attack_path`: the direct-compromise line, the BFS discovery
lines numbered from 2, and — when more than one component is affected — a
final summary line. -/
def Simulator.build_attack_path (sim : Simulator) (target_id : String)
    (affected_ids : Finset String) : List String :=
  let pairs := bfsAux sim.graph affected_ids {target_id} [target_id]
  let steps := step1Text sim.graph target_id :: numberFrom sim.graph 2 pairs
  if 1 < affected_ids.card then
    steps ++ [summaryText (2 + pairs.length) affected_ids.card]
  else steps

/-! ### Explanation -/

/-- Python `f"{q:.1f}"` on the engine's non-negative score values: round
half-to-even to one decimal place and print one digit after the point. -/
def fmt1 (q : ℚ) : String :=
  let n : Int := rndHalfEven (q * 10)
  toString (n / 10) ++ "." ++ toString (n.toNat % 10)

/-- The propagation clause of the explanation. -/
def propagationClause (othersCount : ℕ) : String :=
  " Compromise propagated to " ++ toString othersCount ++ " downstream component(s)."

/-- The isolation clause of the explanation. -/
def isolationClause : String := " No downstream propagation (isolated node)."

/-- `_build_explanation`: one formatted summary string naming the target,
the propagation outcome, and the before/after scores with the absolute
degradation, all to one decimal place. -/
def Simulator.build_explanation (sim : Simulator) (target_id : String)
    (affected_ids : Finset String) (baseline_score compromised_score : ℚ) : String :=
  let target_name := sim.graph.getName target_id
  let delta := |baseline_score - compromised_score|
  let others := affected_ids \ {target_id}
  let propagation :=
    if others ≠ ∅ then propagationClause others.card else isolationClause
  "Node compromise on '" ++ target_name ++ "'." ++ propagation ++
    " Mission success score degraded from " ++ fmt1 baseline_score ++ "% to " ++
    fmt1 compromised_score ++ "% (–" ++ fmt1 delta ++ " percentage points)."

/-! ### Listing a Python set

CPython iterates a `set` in hash-table order: a function of the stored
elements (string hashing is randomised per process), unrelated to the order
in which elements were discovered or inserted.  We model it canonically as
the ascending lexicographic listing of the elements, lifted from the
underlying multiset. -/

/-- Lexicographic `≤` on code-point lists. -/
def keyLEb : List ℕ → List ℕ → Bool
  | [], _ => true
  | _ :: _, [] => false
  | a :: as, b :: bs => if a < b then true else if b < a then false else keyLEb as bs

/-- Lexicographic `≤` on strings via their code points. -/
def strLEb (s t : String) : Bool := keyLEb (s.data.map Char.toNat) (t.data.map Char.toNat)

/-- Insert a string into an ascending-sorted list. -/
def insStr (x : String) : List String → List String
  | [] => [x]
  | y :: ys => if strLEb x y then x :: y :: ys else y :: insStr x ys

/-- Ascending lexicographic insertion sort on strings. -/
def sortStr : List String → List String
  | [] => []
  | x :: xs => insStr x (sortStr xs)

theorem keyLEb_total (a b : List ℕ) : keyLEb a b = true ∨ keyLEb b a = true := by
  induction a generalizing b with
  | nil => left; rfl
  | cons x xs ih =>
    cases b with
    | nil => right; rfl
    | cons y ys =>
      rcases Nat.lt_trichotomy x y with h | h | h
      · left; simp [keyLEb, h]
      · subst h
        rcases ih ys with hk | hk
        · left; simp [keyLEb, hk]
        · right; simp [keyLEb, hk]
      · right; simp [keyLEb, h]

theorem keyLEb_antisymm {a b : List ℕ} (hab : keyLEb a b = true) (hba : keyLEb b a = true) :
    a = b := by
  induction a generalizing b with
  | nil =>
    cases b with
    | nil => rfl
    | cons y ys => simp [keyLEb] at hba
  | cons x xs ih =>
    cases b with
    | nil => simp [keyLEb] at hab
    | cons y ys =>
      rcases Nat.lt_trichotomy x y with h | h | h
      · simp [keyLEb, h, Nat.not_lt.mpr (Nat.le_of_lt h)] at hba
      · subst h
        simp only [keyLEb, lt_irrefl, if_neg (lt_irrefl x), if_false] at hab hba
        rw [ih hab hba]
      · simp [keyLEb, h, Nat.not_lt.mpr (Nat.le_of_lt h)] at hab

theorem keyLEb_trans {a b c : List ℕ} (hab : keyLEb a b = true) (hbc : keyLEb b c = true) :
    keyLEb a c = true := by
  induction a generalizing b c with
  | nil => rfl
  | cons x xs ih =>
    cases b with
    | nil => simp [keyLEb] at hab
    | cons y ys =>
      cases c with
      | nil => simp [keyLEb] at hbc
      | cons z zs =>
        simp only [keyLEb] at hab hbc ⊢
        rcases Nat.lt_trichotomy x y with hxy | hxy | hxy
        · rcases Nat.lt_trichotomy y z with hyz | hyz | hyz
          · simp [Nat.lt_trans hxy hyz]
          · subst hyz; simp [hxy]
          · simp [hyz, Nat.not_lt.mpr (Nat.le_of_lt hyz)] at hbc
        · subst hxy
          rcases Nat.lt_trichotomy x z with hyz | hyz | hyz
          · simp [hyz]
          · subst hyz
            simp only [lt_irrefl, if_neg (lt_irrefl x), if_false] at hab hbc ⊢
            exact ih hab hbc
          · simp [hyz, Nat.not_lt.mpr (Nat.le_of_lt hyz)] at hbc
        · simp [hxy, Nat.not_lt.mpr (Nat.le_of_lt hxy)] at hab

theorem strLEb_total (s t : String) : strLEb s t = true ∨ strLEb t s = true :=
  keyLEb_total _ _

theorem strLEb_trans {s t u : String} (h1 : strLEb s t = true) (h2 : strLEb t u = true) :
    strLEb s u = true :=
  keyLEb_trans h1 h2

theorem strLEb_antisymm {s t : String} (h1 : strLEb s t = true) (h2 : strLEb t s = true) :
    s = t := by
  have hkey := keyLEb_antisymm h1 h2
  have hdata : s.data = t.data := by
    have hinj : Function.Injective Char.toNat := fun a b hab => Char.ext (UInt32.ext hab)
    exact List.map_injective_iff.mpr hinj hkey
  cases s; cases t; exact congrArg String.mk hdata

theorem insStr_perm (x : String) (l : List String) : List.Perm (insStr x l) (x :: l) := by
  induction l with
  | nil => rfl
  | cons y ys ih =>
    by_cases h : strLEb x y = true
    · simp [insStr, h]
    · simp only [insStr, if_neg h]
      exact (ih.cons y).trans (List.Perm.swap x y ys)

theorem sortStr_perm (l : List String) : List.Perm (sortStr l) l := by
  induction l with
  | nil => rfl
  | cons x xs ih => exact (insStr_perm x (sortStr xs)).trans (ih.cons x)

/-- Sortedness of the output of `insStr` on a sorted input. -/
theorem insStr_sorted (x : String) (l : List String)
    (h : l.Pairwise (fun a b => strLEb a b = true)) :
    (insStr x l).Pairwise (fun a b => strLEb a b = true) := by
  induction l with
  | nil => simp [insStr]
  | cons y ys ih =>
    rcases List.pairwise_cons.mp h with ⟨hy, hys⟩
    by_cases hxy : strLEb x y = true
    · simp only [insStr, if_pos hxy]
      refine List.pairwise_cons.mpr ⟨?_, h⟩
      intro b hb
      rcases List.mem_cons.mp hb with hb | hb
      · exact hb ▸ hxy
      · exact strLEb_trans hxy (hy b hb)
    · simp only [insStr, if_neg hxy]
      refine List.pairwise_cons.mpr ⟨?_, ih hys⟩
      intro b hb
      have hb' := (insStr_perm x ys).mem_iff.mp hb
      rcases List.mem_cons.mp hb' with hb' | hb'
      · subst hb'
        rcases strLEb_total y b with h' | h'
        · exact h'
        · exact absurd h' hxy
      · exact hy b hb'

theorem sortStr_sorted (l : List String) :
    (sortStr l).Pairwise (fun a b => strLEb a b = true) := by
  induction l with
  | nil => simp [sortStr]
  | cons x xs ih => exact insStr_sorted x (sortStr xs) ih

instance : IsAntisymm String (fun a b => strLEb a b = true) :=
  ⟨fun _ _ => strLEb_antisymm⟩

/-- Two sorted permutations are equal (`strLEb` is antisymmetric). -/
theorem sortStr_perm_invariant {l l' : List String} (h : List.Perm l l') :
    sortStr l = sortStr l' := by
  have hperm : List.Perm (sortStr l) (sortStr l') :=
    (sortStr_perm l).trans (h.trans (sortStr_perm l').symm)
  exact List.eq_of_perm_of_sorted hperm (sortStr_sorted l) (sortStr_sorted l')

/-- `list(s)` on a Python set: the elements in hash-table order, modelled
canonically as ascending lexicographic order (see section comment). -/
def pySetToList (s : Finset String) : List String :=
  Quot.liftOn s.val sortStr (fun _ _ h => sortStr_perm_invariant h)

/-! ### Result assembly and the orchestrator -/

/-- `SimulationResultSchema`: the assembled result object. -/
structure SimulationResultSchema where
  architecture_id : Int
  scenario_type : String
  target_component_id : String
  baseline_score : ℚ
  compromised_score : ℚ
  score_delta : ℚ
  affected_components : List String
  affected_component_names : List String
  attack_path : List String
  explanation : String
  criticality_ranking : List CriticalityRankEntry

/-- `_run_node_compromise`: propagate, score baseline and compromised,
build narrative, list the affected set with its parallel name list, rank
criticality, and assemble the result. -/
def Simulator.run_node_compromise (sim : Simulator) (target_id : String) :
    SimulationResultSchema :=
  let affected_ids := sim.propagate_compromise target_id
  let baseline_score := sim.calculate_mission_score ∅
  let compromised_score := sim.calculate_mission_score affected_ids
  let score_delta := compromised_score - baseline_score
  let attack_path := sim.build_attack_path target_id affected_ids
  let explanation := sim.build_explanation target_id affected_ids baseline_score
    compromised_score
  let affectedList := pySetToList affected_ids
  let affected_names :=
    (affectedList.filter (fun nid => sim.graph.hasNode nid)).map (fun nid => sim.graph.getName nid)
  let criticality_ranking := sim.rank_criticality (some affected_ids) 10
  { architecture_id := sim.architecture.id.getD 0,
    scenario_type := "node_compromise",
    target_component_id := target_id,
    baseline_score := baseline_score,
    compromised_score := compromised_score,
    score_delta := score_delta,
    affected_components := affectedList,
    affected_component_names := affected_names,
    attack_path := attack_path,
    explanation := explanation,
    criticality_ranking := criticality_ranking }

/-- The frozen supported-scenario set of Increment 1. -/
def SUPPORTED_SCENARIOS : List String := ["node_compromise"]

/-- ASCII lower-casing of one character (`str.lower`; scenario names are
ASCII). -/
def lowerChar (c : Char) : Char :=
  if 65 ≤ c.toNat ∧ c.toNat ≤ 90 then Char.ofNat (c.toNat + 32) else c

/-- Python `str.lower` on the engine's ASCII scenario strings. -/
def pyLower (s : String) : String := ⟨s.data.map lowerChar⟩

/-- Python `str.strip` whitespace test (space, tab, LF, CR, VT, FF). -/
def isPySpace (c : Char) : Bool :=
  c.toNat = 32 || c.toNat = 9 || c.toNat = 10 || c.toNat = 13 || c.toNat = 11 || c.toNat = 12

/-- Python `str.strip`: drop leading and trailing whitespace. -/
def pyStrip (s : String) : String :=
  ⟨((s.data.dropWhile isPySpace).reverse.dropWhile isPySpace).reverse⟩

/-- Message for an unknown scenario; the bracketed tail is
`sorted(SUPPORTED_SCENARIOS)` rendered by Python, which enumerates the
supported scenarios. -/
def unknownScenarioMsg (st : String) : String :=
  "Unknown scenario '" ++ st ++ "'. Supported: ['node_compromise']"

/-- Message for a target id that is not a graph node. -/
def targetNotFoundMsg (t : String) : String :=
  "Component '" ++ t ++ "' not found in the architecture."

/-- `run_simulation`: normalise the scenario name (lower-case, strip),
reject unknown scenarios, then reject a target that is not a graph node —
once, before dispatch — then dispatch. -/
def Simulator.run_simulation (sim : Simulator) (scenario_type target_component_id : String) :
    Except String SimulationResultSchema :=
  let st := pyStrip (pyLower scenario_type)
  if st ∉ SUPPORTED_SCENARIOS then .error (unknownScenarioMsg st)
  else if sim.graph.hasNode target_component_id = false then
    .error (targetNotFoundMsg target_component_id)
  else if st = "node_compromise" then .ok (sim.run_node_compromise target_component_id)
  else .error ("Scenario '" ++ st ++ "' not implemented.")

/-! ### Reachability lemmas -/

theorem mem_successors {g : DiGraph} {u v : String} :
    v ∈ g.successors u ↔ EdgeRel g u v := by
  unfold DiGraph.successors EdgeRel DiGraph.edgeKeys
  simp only [List.mem_map, List.mem_filter, beq_iff_eq]
  constructor
  · rintro ⟨e, ⟨he, hsrc⟩, htgt⟩
    exact ⟨e, he, by rw [← hsrc, ← htgt]⟩
  · rintro ⟨e, he, hkey⟩
    exact ⟨e, ⟨he, by simp [hkey]⟩, by simp [hkey]⟩

theorem subset_stepSet (g : DiGraph) (s : Finset String) : s ⊆ stepSet g s :=
  Finset.subset_union_left

theorem mem_stepSet_of_edge {g : DiGraph} {s : Finset String} {u v : String}
    (hu : u ∈ s) (huv : EdgeRel g u v) : v ∈ stepSet g s := by
  unfold stepSet
  refine Finset.mem_union_right _ (Finset.mem_biUnion.mpr ⟨u, hu, ?_⟩)
  exact List.mem_toFinset.mpr (mem_successors.mpr huv)

theorem stepSet_mono {g : DiGraph} {s t : Finset String} (h : s ⊆ t) :
    stepSet g s ⊆ stepSet g t := by
  unfold stepSet
  intro x hx
  rcases Finset.mem_union.mp hx with hx | hx
  · exact Finset.mem_union_left _ (h hx)
  · rcases Finset.mem_biUnion.mp hx with ⟨u, hu, hxu⟩
    exact Finset.mem_union_right _ (Finset.mem_biUnion.mpr ⟨u, h hu, hxu⟩)

theorem reachIter_subset_succ (g : DiGraph) (s : Finset String) (n : ℕ) :
    reachIter g s n ⊆ reachIter g s (n + 1) :=
  subset_stepSet g _

theorem reachIter_mono (g : DiGraph) (s : Finset String) {m n : ℕ} (h : m ≤ n) :
    reachIter g s m ⊆ reachIter g s n := by
  induction n with
  | zero => simp [Nat.le_zero.mp h]
  | succ k ih =>
    rcases Nat.lt_or_ge m (k + 1) with h' | h'
    · exact (ih (Nat.lt_succ_iff.mp h')).trans (reachIter_subset_succ g s k)
    · have : m = k + 1 := Nat.le_antisymm h h'
      subst this; exact subset_rfl

theorem reachIter_sound {g : DiGraph} {s v : String} {n : ℕ}
    (h : v ∈ reachIter g {s} n) : Reaches g s v := by
  induction n generalizing v with
  | zero =>
    have : v = s := Finset.mem_singleton.mp h
    exact this ▸ Relation.ReflTransGen.refl
  | succ k ih =>
    simp only [reachIter, stepSet, Finset.mem_union] at h
    rcases h with h | h
    · exact ih h
    · rcases Finset.mem_biUnion.mp h with ⟨u, hu, hvu⟩
      exact Relation.ReflTransGen.tail (ih hu) (mem_successors.mp (List.mem_toFinset.mp hvu))

/-- Everything the iteration can reach lies in the start node plus the edge
targets. -/
theorem reachIter_subset_univ (g : DiGraph) (s : String) (n : ℕ) :
    reachIter g {s} n ⊆ insert s (g.edges.map (fun e => e.1.2)).toFinset := by
  induction n with
  | zero => simp [reachIter]
  | succ k ih =>
    intro x hx
    simp only [reachIter, stepSet, Finset.mem_union] at hx
    rcases hx with hx | hx
    · exact ih hx
    · rcases Finset.mem_biUnion.mp hx with ⟨u, _, hxu⟩
      have hsucc := List.mem_toFinset.mp hxu
      unfold DiGraph.successors at hsucc
      rcases List.mem_map.mp hsucc with ⟨e, he, hev⟩
      refine Finset.mem_insert_of_mem (List.mem_toFinset.mpr ?_)
      exact List.mem_map.mpr ⟨e, (List.mem_filter.mp he).1, hev⟩

theorem reachIter_stable {g : DiGraph} {s : Finset String} {n : ℕ}
    (h : reachIter g s (n + 1) = reachIter g s n) :
    ∀ k, reachIter g s (n + k) = reachIter g s n := by
  intro k
  induction k with
  | zero => rfl
  | succ j ih =>
    have : n + (j + 1) = (n + j) + 1 := by omega
    rw [this]
    show stepSet g (reachIter g s (n + j)) = reachIter g s n
    rw [ih]
    exact h

theorem reachIter_card_grows (g : DiGraph) (s : String) :
    ∀ n, (∀ m < n, reachIter g {s} (m + 1) ≠ reachIter g {s} m) →
      n + 1 ≤ (reachIter g {s} n).card := by
  intro n
  induction n with
  | zero => intro _; simp [reachIter]
  | succ k ih =>
    intro hno
    have hk := ih (fun m hm => hno m (Nat.lt_succ_of_lt hm))
    have hne : reachIter g {s} (k + 1) ≠ reachIter g {s} k := hno k (Nat.lt_succ_self k)
    have hss : reachIter g {s} k ⊂ reachIter g {s} (k + 1) :=
      Finset.ssubset_iff_subset_ne.mpr ⟨reachIter_subset_succ g _ k, fun he => hne he.symm⟩
    have := Finset.card_lt_card hss
    omega

/-- The iteration reaches a fixpoint within `edges.length` steps. -/
theorem reachIter_fixpoint (g : DiGraph) (s : String) :
    ∃ m ≤ g.edges.length, reachIter g {s} (m + 1) = reachIter g {s} m := by
  by_contra hno
  push_neg at hno
  have hgrow := reachIter_card_grows g s (g.edges.length + 1) (fun m hm =>
    hno m (Nat.lt_succ_iff.mp hm))
  have hsub := reachIter_subset_univ g s (g.edges.length + 1)
  have hcard := Finset.card_le_card hsub
  have hbound : (insert s (g.edges.map (fun e => e.1.2)).toFinset).card
      ≤ g.edges.length + 1 := by
    have h1 := Finset.card_insert_le s (g.edges.map (fun e => e.1.2)).toFinset
    have h2 := (g.edges.map (fun e => e.1.2)).toFinset_card_le
    have h3 : (g.edges.map (fun e => e.1.2)).length = g.edges.length :=
      List.length_map _ _
    omega
  omega

theorem reachIter_le_final (g : DiGraph) (s : String) (k : ℕ) :
    reachIter g {s} k ⊆ reachIter g {s} g.edges.length := by
  rcases reachIter_fixpoint g s with ⟨m, hm, hfix⟩
  rcases Nat.le_total k g.edges.length with h | h
  · exact reachIter_mono g _ h
  · have h1 : reachIter g {s} k = reachIter g {s} m := by
      have : k = m + (k - m) := by omega
      rw [this]; exact reachIter_stable hfix _
    have h2 : reachIter g {s} g.edges.length = reachIter g {s} m := by
      have : g.edges.length = m + (g.edges.length - m) := by omega
      rw [this]; exact reachIter_stable hfix _
    rw [h1, h2]

theorem reachIter_complete {g : DiGraph} {s v : String} (h : Reaches g s v) :
    v ∈ reachIter g {s} g.edges.length := by
  have : ∃ n, v ∈ reachIter g {s} n := by
    induction h with
    | refl => exact ⟨0, Finset.mem_singleton_self s⟩
    | tail _ hedge ih =>
      rcases ih with ⟨n, hn⟩
      exact ⟨n + 1, mem_stepSet_of_edge hn hedge⟩
  rcases this with ⟨n, hn⟩
  exact reachIter_le_final g s n hn

theorem mem_reachIter_iff {g : DiGraph} {s v : String} :
    v ∈ reachIter g {s} g.edges.length ↔ Reaches g s v :=
  ⟨reachIter_sound, reachIter_complete⟩

/-- Membership in `propagate_compromise` for a present start node is exactly
reflexive-transitive reachability. -/
theorem mem_propagate_iff {sim : Simulator} {s v : String}
    (hs : sim.graph.hasNode s = true) :
    v ∈ sim.propagate_compromise s ↔ Reaches sim.graph s v := by
  unfold Simulator.propagate_compromise
  rw [if_pos hs]
  unfold descendantsOf
  constructor
  · intro hv
    rcases Finset.mem_union.mp hv with hv | hv
    · exact reachIter_sound (Finset.mem_sdiff.mp hv).1
    · have : v = s := Finset.mem_singleton.mp hv
      exact this ▸ Relation.ReflTransGen.refl
  · intro hv
    by_cases hvs : v = s
    · exact Finset.mem_union_right _ (Finset.mem_singleton.mpr hvs)
    · refine Finset.mem_union_left _ (Finset.mem_sdiff.mpr ⟨reachIter_complete hv, ?_⟩)
      simpa using hvs

/-! ### Structural lemmas about graph construction -/

theorem addNode_nodeIds (g : DiGraph) (n : String) (a : NodeAttrs) :
    (addNode g n a).nodeIds = if n ∈ g.nodeIds then g.nodeIds else g.nodeIds ++ [n] := by
  unfold addNode
  by_cases h : n ∈ g.nodeIds
  · rw [if_pos h, if_pos h]
    show (g.nodes.map (fun p => if p.1 = n then (n, a) else p)).map Prod.fst
        = g.nodes.map Prod.fst
    rw [List.map_map]
    refine List.map_congr_left ?_
    intro p _
    by_cases hpn : p.1 = n
    · simp [Function.comp, hpn]
    · simp [Function.comp, hpn]
  · rw [if_neg h, if_neg h]
    show (g.nodes ++ [(n, a)]).map Prod.fst = g.nodes.map Prod.fst ++ [n]
    simp

theorem ensureNode_nodeIds (g : DiGraph) (n : String) :
    (ensureNode g n).nodeIds = if n ∈ g.nodeIds then g.nodeIds else g.nodeIds ++ [n] := by
  unfold ensureNode
  by_cases h : n ∈ g.nodeIds
  · rw [if_pos h, if_pos h]
  · rw [if_neg h, if_neg h]
    simp [DiGraph.nodeIds]

theorem addEdge_nodeIds (g : DiGraph) (u v : String) (a : EdgeAttrs) :
    (addEdge g u v a).nodeIds = (ensureNode (ensureNode g u) v).nodeIds := by
  unfold addEdge
  by_cases hk : (u, v) ∈ (ensureNode (ensureNode g u) v).edgeKeys
  · rw [if_pos hk]; rfl
  · rw [if_neg hk]; rfl


theorem mem_addNode_nodeIds {g : DiGraph} {n x : String} {a : NodeAttrs} :
    x ∈ (addNode g n a).nodeIds ↔ x ∈ g.nodeIds ∨ x = n := by
  rw [addNode_nodeIds]
  by_cases h : n ∈ g.nodeIds
  · rw [if_pos h]
    constructor
    · exact Or.inl
    · rintro (hx | hx)
      · exact hx
      · exact hx ▸ h
  · rw [if_neg h]
    simp

theorem mem_ensureNode_nodeIds {g : DiGraph} {n x : String} :
    x ∈ (ensureNode g n).nodeIds ↔ x ∈ g.nodeIds ∨ x = n := by
  rw [ensureNode_nodeIds]
  by_cases h : n ∈ g.nodeIds
  · rw [if_pos h]
    constructor
    · exact Or.inl
    · rintro (hx | hx)
      · exact hx
      · exact hx ▸ h
  · rw [if_neg h]
    simp

theorem addEdge_nodes_set {g : DiGraph} {u v x : String} {a : EdgeAttrs} :
    x ∈ (addEdge g u v a).nodeIds ↔ x ∈ g.nodeIds ∨ x = u ∨ x = v := by
  rw [addEdge_nodeIds, mem_ensureNode_nodeIds, mem_ensureNode_nodeIds]
  tauto

theorem addNode_nodeIds_nodup {g : DiGraph} {n : String} {a : NodeAttrs}
    (h : g.nodeIds.Nodup) : (addNode g n a).nodeIds.Nodup := by
  rw [addNode_nodeIds]
  by_cases hn : n ∈ g.nodeIds
  · rw [if_pos hn]; exact h
  · rw [if_neg hn]
    rw [List.nodup_append]
    exact ⟨h, List.nodup_singleton n, by simpa using fun hx => hn hx⟩

theorem ensureNode_nodeIds_nodup {g : DiGraph} {n : String}
    (h : g.nodeIds.Nodup) : (ensureNode g n).nodeIds.Nodup := by
  rw [ensureNode_nodeIds]
  by_cases hn : n ∈ g.nodeIds
  · rw [if_pos hn]; exact h
  · rw [if_neg hn]
    rw [List.nodup_append]
    exact ⟨h, List.nodup_singleton n, by simpa using fun hx => hn hx⟩

theorem addEdge_nodeIds_nodup {g : DiGraph} {u v : String} {a : EdgeAttrs}
    (h : g.nodeIds.Nodup) : (addEdge g u v a).nodeIds.Nodup := by
  rw [addEdge_nodeIds]
  exact ensureNode_nodeIds_nodup (ensureNode_nodeIds_nodup h)

theorem addComponents_nodeIds_set {cs : List ComponentSchema} :
    ∀ {g : DiGraph} {x : String},
      (x ∈ (addComponents g cs).nodeIds ↔ x ∈ g.nodeIds ∨ x ∈ cs.map (fun c => c.id)) := by
  induction cs with
  | nil => intro g x; simp [addComponents]
  | cons c cs ih =>
    intro g x
    show x ∈ (addComponents (addNode g c.id (mkNodeAttrs c)) cs).nodeIds ↔ _
    rw [ih, mem_addNode_nodeIds]
    simp [List.mem_map]
    constructor
    · rintro ((hx | hx) | hx)
      · exact Or.inl hx
      · exact Or.inr (Or.inl hx)
      · exact Or.inr (Or.inr hx)
    · rintro (hx | hx | hx)
      · exact Or.inl (Or.inl hx)
      · exact Or.inl (Or.inr hx)
      · exact Or.inr hx

theorem addComponents_nodeIds_nodup {cs : List ComponentSchema} :
    ∀ {g : DiGraph}, g.nodeIds.Nodup → (addComponents g cs).nodeIds.Nodup := by
  induction cs with
  | nil => intro g h; exact h
  | cons c cs ih =>
    intro g h
    exact ih (addNode_nodeIds_nodup h)

theorem addFlows_ok_nodeIds_set {fs : List DataFlowSchema} {ids : List String} :
    ∀ {g g' : DiGraph}, addFlows ids g fs = .ok g' →
      ∀ x, x ∈ g'.nodeIds ↔ x ∈ g.nodeIds ∨ (x ∈ ids ∧ x ∈ g'.nodeIds) := by
  induction fs with
  | nil =>
    intro g g' h x
    simp only [addFlows] at h
    cases h
    tauto
  | cons f fs ih =>
    intro g g' h x
    simp only [addFlows] at h
    by_cases hs : f.source ∈ ids
    · by_cases ht : f.target ∈ ids
      · rw [if_neg (by simpa using hs), if_neg (by simpa using ht)] at h
        have hstep := ih h x
        have haddE : ∀ y : String,
            y ∈ (addEdge g f.source f.target (mkEdgeAttrs f)).nodeIds ↔
              y ∈ g.nodeIds ∨ y = f.source ∨ y = f.target := fun y => addEdge_nodes_set
        constructor
        · intro hx
          rcases hstep.mp hx with hx' | hx'
          · rcases (haddE x).mp hx' with h1 | h1 | h1
            · exact Or.inl h1
            · exact Or.inr ⟨h1 ▸ hs, hx⟩
            · exact Or.inr ⟨h1 ▸ ht, hx⟩
          · exact Or.inr hx'
        · rintro (hx | hx)
          · exact hstep.mpr (Or.inl ((haddE x).mpr (Or.inl hx)))
          · exact hx.2
      · rw [if_neg (by simpa using hs), if_pos (by simpa using ht)] at h
        cases h
    · rw [if_pos (by simpa using hs)] at h
      cases h

theorem addFlows_ok_nodeIds_nodup {fs : List DataFlowSchema} {ids : List String} :
    ∀ {g g' : DiGraph}, addFlows ids g fs = .ok g' →
      g.nodeIds.Nodup → g'.nodeIds.Nodup := by
  induction fs with
  | nil =>
    intro g g' h hn
    simp only [addFlows] at h
    cases h; exact hn
  | cons f fs ih =>
    intro g g' h hn
    simp only [addFlows] at h
    by_cases hs : f.source ∈ ids
    · by_cases ht : f.target ∈ ids
      · rw [if_neg (by simpa using hs), if_neg (by simpa using ht)] at h
        exact ih h (addEdge_nodeIds_nodup hn)
      · rw [if_neg (by simpa using hs), if_pos (by simpa using ht)] at h
        cases h
    · rw [if_pos (by simpa using hs)] at h
      cases h

/-- For a successfully built simulator, the graph's node keys are exactly
the declared component ids. -/
theorem mkSimulator_nodeIds_set {arch : ArchitectureSchema} {sim : Simulator}
    (h : mkSimulator arch = .ok sim) :
    ∀ x, x ∈ sim.graph.nodeIds ↔ x ∈ arch.components.map (fun c => c.id) := by
  unfold mkSimulator at h
  by_cases he : arch.components.isEmpty
  · rw [if_pos he] at h; cases h
  · rw [if_neg he] at h
    unfold buildGraph at h
    cases hb : addFlows (arch.components.map (fun c => c.id))
        (addComponents ⟨[], []⟩ arch.components) arch.flows with
    | error e => rw [hb] at h; cases h
    | ok g' =>
      rw [hb] at h
      cases h
      intro x
      have hset := addFlows_ok_nodeIds_set hb x
      have hbase : ∀ y, y ∈ (addComponents (⟨[], []⟩ : DiGraph) arch.components).nodeIds
          ↔ y ∈ arch.components.map (fun c => c.id) := by
        intro y
        rw [addComponents_nodeIds_set]
        simp [DiGraph.nodeIds]
      constructor
      · intro hx
        rcases (hset.mp hx) with hx' | hx'
        · exact (hbase x).mp hx'
        · exact hx'.1
      · intro hx
        refine hset.mpr (Or.inl ((hbase x).mpr hx))

/-- For a successfully built simulator, the graph's node-key list has no
duplicates. -/
theorem mkSimulator_nodeIds_nodup {arch : ArchitectureSchema} {sim : Simulator}
    (h : mkSimulator arch = .ok sim) : sim.graph.nodeIds.Nodup := by
  unfold mkSimulator at h
  by_cases he : arch.components.isEmpty
  · rw [if_pos he] at h; cases h
  · rw [if_neg he] at h
    unfold buildGraph at h
    cases hb : addFlows (arch.components.map (fun c => c.id))
        (addComponents ⟨[], []⟩ arch.components) arch.flows with
    | error e => rw [hb] at h; cases h
    | ok g' =>
      rw [hb] at h
      cases h
      refine addFlows_ok_nodeIds_nodup hb ?_
      refine addComponents_nodeIds_nodup ?_
      simp [DiGraph.nodeIds]

/-! ### Witness fixtures -/

/-- Test component with all-zero canvas position (mirrors the test helper). -/
def compW (id name type : String) (crit : Int) : ComponentSchema :=
  { id := id, name := name, type := type, criticality := crit, position := (0, 0) }

/-- Test flow with the auto-generated id format of the test helper. -/
def flowW (src tgt : String) : DataFlowSchema :=
  { id := "flow-" ++ src ++ "-" ++ tgt, source := src, target := tgt }

/-- Linear chain A -> B -> C (the `linear_arch` test fixture). -/
def archLinear : ArchitectureSchema :=
  { id := some 1, name := "Test Architecture",
    components := [compW "A" ("Node-A") ("Sensor") 7, compW "B" ("Node-B") ("Compute") 8,
      compW "C" ("Node-C") ("Control") 9],
    flows := [flowW "A" "B", flowW "B" "C"] }

/-- Cyclic graph x -> y -> z -> x. -/
def archCyc : ArchitectureSchema :=
  { id := some 1, name := "Cyclic",
    components := [compW "x" "X" ("Sensor") 5, compW "y" "Y" ("Compute") 5,
      compW "z" "Z" ("Control") 5],
    flows := [flowW "x" "y", flowW "y" "z", flowW "z" "x"] }

/-- Build a simulator directly, with a junk empty graph on failure (used
only to name the concrete simulator a successful construction returns). -/
def simOfD (arch : ArchitectureSchema) : Simulator :=
  ⟨arch, ((buildGraph arch).toOption.getD ⟨[], []⟩)⟩

/-- The linear-chain simulator. -/
def simLinear : Simulator := simOfD archLinear

/-- The cyclic simulator. -/
def simCyc : Simulator := simOfD archCyc

/-! ### C1 -/

/-- **C1.** For every simulator graph and node id `s`: if `s` is a node,
`propagate_compromise s` contains exactly `s` together with every node
reachable from `s` along directed edges forward, any number of hops
(membership is reflexive-transitive reachability; the `Finset` result holds
each node once, and the definition is total, so traversal terminates on
cyclic graphs); if `s` is absent it returns the empty set, without raising. -/
theorem c1_propagate_compromise_reachable_set (sim : Simulator) (s : String) :
    (sim.graph.hasNode s = true →
      ∀ v, v ∈ sim.propagate_compromise s ↔ Reaches sim.graph s v) ∧
    (sim.graph.hasNode s = false → sim.propagate_compromise s = ∅) := by
  constructor
  · intro hs v
    exact mem_propagate_iff hs
  · intro hs
    unfold Simulator.propagate_compromise
    rw [if_neg (by simp [hs])]

/-- Witness for C1 on the cyclic fixture: `x` is a node and the
characterisation applies to `z` (reachable through the cycle); `w` is not a
node and propagation returns the empty set. -/
theorem c1_witness :
    (simCyc.graph.hasNode "x" = true
      ∧ (("z" ∈ simCyc.propagate_compromise "x") ↔ Reaches simCyc.graph "x" "z"))
    ∧ (simCyc.graph.hasNode "w" = false ∧ simCyc.propagate_compromise "w" = ∅) :=
  ⟨⟨rfl, (c1_propagate_compromise_reachable_set simCyc "x").1 rfl "z"⟩,
    ⟨rfl, (c1_propagate_compromise_reachable_set simCyc "w").2 rfl⟩⟩

/-! ### C2: scoring -/

theorem rndHalfEven_intCast (z : ℤ) : rndHalfEven (z : ℚ) = z := by
  unfold rndHalfEven
  rw [Int.floor_intCast]
  rw [if_pos]
  norm_num

theorem pyRound2_intCast (z : ℤ) : pyRound2 (z : ℚ) = (z : ℚ) := by
  unfold pyRound2
  have h : ((z : ℚ) * 100) = ((z * 100 : ℤ) : ℚ) := by push_cast; ring
  rw [h, rndHalfEven_intCast]
  push_cast
  ring

/-- For a built simulator the component list is non-empty, hence the graph
has at least one node. -/
theorem mkSimulator_nodes_pos {arch : ArchitectureSchema} {sim : Simulator}
    (h : mkSimulator arch = .ok sim) : 1 ≤ sim.graph.numberOfNodes := by
  have hne : arch.components ≠ [] := by
    intro hc
    unfold mkSimulator at h
    rw [hc] at h
    simp [List.isEmpty] at h
  cases hc : arch.components with
  | nil => exact absurd hc hne
  | cons c cs =>
    have hcid : c.id ∈ arch.components.map (fun c => c.id) := by
      rw [hc]; exact List.mem_map.mpr ⟨c, List.mem_cons_self c cs, rfl⟩
    have hmem := (mkSimulator_nodeIds_set h c.id).mpr hcid
    have hlen : 0 < sim.graph.nodeIds.length := List.length_pos.mpr
      (List.ne_nil_of_mem hmem)
    unfold DiGraph.nodeIds at hlen
    rw [List.length_map] at hlen
    exact hlen

/-- **C2.** For a built simulator (whose graph has `N ≥ 1` nodes) and any id
set `A` — stale ids included — `calculate_mission_score A` is exactly
`round2((clamp(N - card A, 0, N) / N) * 100)` with Python's half-even
rounding; the empty set scores exactly `100.0`, the full node-id set scores
exactly `0.0`; and any simulator with a zero-node graph scores `0.0`. -/
theorem c2_calculate_mission_score_spec (arch : ArchitectureSchema) (sim : Simulator)
    (hsim : mkSimulator arch = .ok sim) :
    1 ≤ sim.graph.numberOfNodes ∧
    (∀ A : Finset String,
      sim.calculate_mission_score A =
        pyRound2 (((max 0 (min ((sim.graph.numberOfNodes : ℤ) - (A.card : ℤ))
          (sim.graph.numberOfNodes : ℤ)) : ℤ) : ℚ) / (sim.graph.numberOfNodes : ℚ) * 100)) ∧
    sim.calculate_mission_score ∅ = 100 ∧
    sim.calculate_mission_score sim.graph.nodeIds.toFinset = 0 ∧
    (∀ (sim' : Simulator) (A : Finset String),
      sim'.graph.numberOfNodes = 0 → sim'.calculate_mission_score A = 0) := by
  have hN := mkSimulator_nodes_pos hsim
  have hN0 : sim.graph.numberOfNodes ≠ 0 := by omega
  refine ⟨hN, ?_, ?_, ?_, ?_⟩
  · intro A
    unfold Simulator.calculate_mission_score
    rw [if_neg hN0]
  · unfold Simulator.calculate_mission_score
    rw [if_neg hN0]
    simp only [Finset.card_empty, Nat.cast_zero, sub_zero, min_self]
    rw [max_eq_right (Int.ofNat_nonneg _)]
    have h100 : ((sim.graph.numberOfNodes : ℤ) : ℚ) / (sim.graph.numberOfNodes : ℚ) * 100
        = ((100 : ℤ) : ℚ) := by
      push_cast
      field_simp
    rw [h100, pyRound2_intCast]
    norm_num
  · unfold Simulator.calculate_mission_score
    rw [if_neg hN0]
    have hcard : sim.graph.nodeIds.toFinset.card = sim.graph.numberOfNodes := by
      rw [List.toFinset_card_of_nodup (mkSimulator_nodeIds_nodup hsim)]
      unfold DiGraph.nodeIds DiGraph.numberOfNodes
      exact List.length_map _ _
    rw [hcard]
    simp only [sub_self]
    rw [min_eq_left (Int.ofNat_nonneg _), max_self]
    have h0 : ((0 : ℤ) : ℚ) / (sim.graph.numberOfNodes : ℚ) * 100 = ((0 : ℤ) : ℚ) := by
      push_cast
      ring
    rw [h0, pyRound2_intCast]
    norm_num
  · intro sim' A h0
    unfold Simulator.calculate_mission_score
    rw [if_pos h0]

/-- Witness for C2 on the linear fixture: the hypotheses hold and the empty
set scores 100. -/
theorem c2_witness :
    mkSimulator archLinear = .ok simLinear ∧ simLinear.calculate_mission_score ∅ = 100 :=
  ⟨rfl, (c2_calculate_mission_score_spec archLinear simLinear rfl).2.2.1⟩

/-! ### C5: construction validation -/

/-- The message `_build_graph` raises for a dangling flow: the source check
runs first. -/
def flowErrMsg (ids : List String) (f : DataFlowSchema) : String :=
  if f.source ∉ ids then unknownSourceMsg f else unknownTargetMsg f

theorem addFlows_error_of_dangling {ids : List String} {fs : List DataFlowSchema} :
    ∀ {g : DiGraph}, (∃ f ∈ fs, f.source ∉ ids ∨ f.target ∉ ids) →
      ∃ f ∈ fs, (f.source ∉ ids ∨ f.target ∉ ids) ∧
        addFlows ids g fs = .error (flowErrMsg ids f) := by
  induction fs with
  | nil => rintro g ⟨f, hf, _⟩; cases hf
  | cons f fs ih =>
    rintro g ⟨f', hf', hdang⟩
    by_cases hs : f.source ∈ ids
    · by_cases ht : f.target ∈ ids
      · have hrest : ∃ f ∈ fs, f.source ∉ ids ∨ f.target ∉ ids := by
          rcases List.mem_cons.mp hf' with he | he
          · subst he
            rcases hdang with hd | hd
            · exact absurd hs hd
            · exact absurd ht hd
          · exact ⟨f', he, hdang⟩
        rcases ih hrest with ⟨f₀, hf₀, hd₀, herr⟩
        refine ⟨f₀, List.mem_cons_of_mem _ hf₀, hd₀, ?_⟩
        show addFlows ids g (f :: fs) = _
        simp only [addFlows]
        rw [if_neg (by simpa using hs), if_neg (by simpa using ht)]
        exact herr
      · refine ⟨f, List.mem_cons_self _ _, Or.inr ht, ?_⟩
        show addFlows ids g (f :: fs) = _
        simp only [addFlows]
        rw [if_neg (by simpa using hs), if_pos (by simpa using ht)]
        unfold flowErrMsg
        rw [if_neg (by simpa using hs)]
    · refine ⟨f, List.mem_cons_self _ _, Or.inl hs, ?_⟩
      show addFlows ids g (f :: fs) = _
      simp only [addFlows]
      rw [if_pos (by simpa using hs)]
      unfold flowErrMsg
      rw [if_pos (by simpa using hs)]

/-- **C5.** Construction fails immediately with the empty-architecture
message when the component list is empty; with a non-empty component list
and any flow whose source or target is undeclared, construction fails with
the message identifying that flow's id and the missing endpoint (so with a
dangling flow it never returns a simulator); and a successfully built graph
contains only declared nodes. -/
theorem c5_constructor_validation (arch : ArchitectureSchema) :
    (arch.components = [] → mkSimulator arch = .error emptyArchMsg) ∧
    (arch.components ≠ [] →
      (∃ f ∈ arch.flows,
          f.source ∉ arch.components.map (fun c => c.id) ∨
          f.target ∉ arch.components.map (fun c => c.id)) →
      ∃ f ∈ arch.flows,
        (f.source ∉ arch.components.map (fun c => c.id) ∨
          f.target ∉ arch.components.map (fun c => c.id)) ∧
        mkSimulator arch = .error (flowErrMsg (arch.components.map (fun c => c.id)) f)) ∧
    (∀ sim, mkSimulator arch = .ok sim →
      ∀ x ∈ sim.graph.nodeIds, x ∈ arch.components.map (fun c => c.id)) := by
  refine ⟨?_, ?_, ?_⟩
  · intro hc
    unfold mkSimulator
    rw [if_pos (by rw [hc]; rfl)]
  · intro hne hdang
    rcases addFlows_error_of_dangling (g := addComponents ⟨[], []⟩ arch.components) hdang
      with ⟨f, hf, hd, herr⟩
    refine ⟨f, hf, hd, ?_⟩
    unfold mkSimulator
    rw [if_neg (by simpa [List.isEmpty_iff] using hne)]
    unfold buildGraph
    rw [herr]
    rfl
  · intro sim hsim x hx
    exact (mkSimulator_nodeIds_set hsim x).mp hx

/-- Architecture with no components. -/
def archEmpty : ArchitectureSchema :=
  { id := some 1, name := "E", components := [], flows := [] }

/-- Architecture with one component and a flow to an undeclared target. -/
def archDangling : ArchitectureSchema :=
  { id := some 1, name := "D", components := [compW "A" "A" ("Sensor") 5],
    flows := [flowW "A" "ghost"] }

/-- Witness for C5: the empty architecture fails with the empty message; a
dangling flow makes construction fail, with a message identifying the flow
and the missing endpoint; and on the linear fixture a graph node is
declared. -/
theorem c5_witness :
    (archEmpty.components = [] ∧ mkSimulator archEmpty = .error emptyArchMsg)
    ∧ (archDangling.components ≠ [] ∧
        (∃ f ∈ archDangling.flows,
          (f.source ∉ archDangling.components.map (fun c => c.id) ∨
            f.target ∉ archDangling.components.map (fun c => c.id)) ∧
          mkSimulator archDangling
            = .error (flowErrMsg (archDangling.components.map (fun c => c.id)) f)))
    ∧ (mkSimulator archLinear = .ok simLinear
        ∧ ("A" ∈ archLinear.components.map (fun c => c.id))) := by
  refine ⟨⟨rfl, (c5_constructor_validation _).1 rfl⟩, ⟨by decide, ?_⟩, rfl, ?_⟩
  · refine (c5_constructor_validation archDangling).2.1 (by decide) ?_
    exact ⟨flowW "A" "ghost", by decide, by decide⟩
  · exact (c5_constructor_validation archLinear).2.2 simLinear rfl "A" (by decide)

/-! ### C4: orchestrator validation -/

theorem unknownScenarioMsg_ne_targetNotFoundMsg (a b : String) :
    unknownScenarioMsg a ≠ targetNotFoundMsg b := by
  intro h
  have hd := congrArg String.data h
  simp [unknownScenarioMsg, targetNotFoundMsg, String.data_append] at hd

/-- The unknown-scenario message enumerates the supported scenarios: it
contains `node_compromise` as a substring. -/
theorem unknownScenarioMsg_enumerates (st : String) :
    ∃ pre post : List Char,
      (unknownScenarioMsg st).data = pre ++ ("node_compromise").data ++ post := by
  refine ⟨("Unknown scenario '").data ++ st.data ++ ("'. Supported: ['").data,
    ("']").data, ?_⟩
  simp only [unknownScenarioMsg, String.data_append, List.append_assoc]
  refine congrArg _ (congrArg _ ?_)
  decide

/-- **C4.** `run_simulation` fails with the unknown-scenario message — which
enumerates the supported scenarios — iff the stripped lower-cased scenario
is not in the supported set; for a supported scenario it fails with the
target-not-found message iff the target is not a graph node (the target
check runs once, before dispatch); and it returns a result iff the scenario
normalises into the supported set and the target is a node. -/
theorem c4_run_simulation_validation (sim : Simulator) (s t : String) :
    (sim.run_simulation s t = .error (unknownScenarioMsg (pyStrip (pyLower s)))
      ↔ pyStrip (pyLower s) ∉ SUPPORTED_SCENARIOS) ∧
    (pyStrip (pyLower s) ∈ SUPPORTED_SCENARIOS →
      (sim.run_simulation s t = .error (targetNotFoundMsg t)
        ↔ sim.graph.hasNode t = false)) ∧
    ((∃ r, sim.run_simulation s t = .ok r)
      ↔ (pyStrip (pyLower s) ∈ SUPPORTED_SCENARIOS ∧ sim.graph.hasNode t = true)) := by
  by_cases hst : pyStrip (pyLower s) ∈ SUPPORTED_SCENARIOS
  · have heq : pyStrip (pyLower s) = "node_compromise" := by
      simpa [SUPPORTED_SCENARIOS] using hst
    by_cases ht : sim.graph.hasNode t = false
    · have hrun : sim.run_simulation s t = .error (targetNotFoundMsg t) := by
        unfold Simulator.run_simulation
        rw [if_neg (by simpa using hst), if_pos ht]
      refine ⟨?_, fun _ => ?_, ?_⟩
      · rw [hrun]
        constructor
        · intro h
          exact absurd (Except.error.inj h).symm
            (unknownScenarioMsg_ne_targetNotFoundMsg _ _)
        · intro h
          exact absurd hst h
      · rw [hrun]
        exact ⟨fun _ => ht, fun _ => rfl⟩
      · rw [hrun]
        constructor
        · rintro ⟨r, hr⟩
          cases hr
        · rintro ⟨_, h⟩
          rw [h] at ht
          cases ht
    · have ht' : sim.graph.hasNode t = true := by
        cases h : sim.graph.hasNode t
        · exact absurd h ht
        · rfl
      have hrun : sim.run_simulation s t
          = .ok (sim.run_node_compromise t) := by
        unfold Simulator.run_simulation
        rw [if_neg (by simpa using hst), if_neg (by simp [ht']), if_pos heq]
      refine ⟨?_, fun _ => ?_, ?_⟩
      · rw [hrun]
        constructor
        · intro h; cases h
        · intro h; exact absurd hst h
      · rw [hrun]
        constructor
        · intro h; cases h
        · intro h; rw [ht'] at h; cases h
      · rw [hrun]
        exact ⟨fun _ => ⟨hst, ht'⟩, fun _ => ⟨_, rfl⟩⟩
  · have hrun : sim.run_simulation s t
        = .error (unknownScenarioMsg (pyStrip (pyLower s))) := by
      unfold Simulator.run_simulation
      rw [if_pos hst]
    refine ⟨?_, fun h => absurd h hst, ?_⟩
    · rw [hrun]
      exact ⟨fun _ => hst, fun _ => rfl⟩
    · rw [hrun]
      constructor
      · rintro ⟨r, hr⟩; cases hr
      · rintro ⟨h, _⟩; exact absurd h hst

/-- Witness for C4: on the linear fixture, a whitespace-and-case variant of
`node_compromise` with an existing target returns a result; the normalised
variant is in the supported set; an unknown scenario yields the
unknown-scenario error; an absent target yields the not-found error; and
the unknown-scenario message contains `node_compromise`. -/
theorem c4_witness :
    (pyStrip (pyLower " NODE_Compromise ") ∈ SUPPORTED_SCENARIOS
      ∧ simLinear.graph.hasNode "A" = true
      ∧ (∃ r, simLinear.run_simulation " NODE_Compromise " "A" = .ok r))
    ∧ (pyStrip (pyLower "bogus") ∉ SUPPORTED_SCENARIOS
      ∧ simLinear.run_simulation "bogus" "A"
          = .error (unknownScenarioMsg (pyStrip (pyLower "bogus"))))
    ∧ (simLinear.graph.hasNode "zzz" = false
      ∧ simLinear.run_simulation "node_compromise" "zzz"
          = .error (targetNotFoundMsg "zzz"))
    ∧ (∃ pre post : List Char,
        (unknownScenarioMsg "bogus").data = pre ++ ("node_compromise").data ++ post) := by
  have h1 : pyStrip (pyLower " NODE_Compromise ") ∈ SUPPORTED_SCENARIOS := by decide
  have h2 : simLinear.graph.hasNode "A" = true := rfl
  have h3 : pyStrip (pyLower "bogus") ∉ SUPPORTED_SCENARIOS := by decide
  have h4 : simLinear.graph.hasNode "zzz" = false := rfl
  refine ⟨⟨h1, h2, ?_⟩, ⟨h3, ?_⟩, ⟨h4, ?_⟩, ?_⟩
  · exact (c4_run_simulation_validation simLinear " NODE_Compromise " "A").2.2.mpr ⟨h1, h2⟩
  · exact (c4_run_simulation_validation simLinear "bogus" "A").1.mpr h3
  · refine ((c4_run_simulation_validation simLinear "node_compromise" "zzz").2.1
      (by decide)).mpr h4
  · exact unknownScenarioMsg_enumerates "bogus"

/-! ### C3: ranking order -/

/-- Weak descending order on `(composite, descendant_count)` keys. -/
def keyGE (a b : ℚ × ℕ) : Prop := b.1 < a.1 ∨ (a.1 = b.1 ∧ b.2 ≤ a.2)

theorem keyGE_of_keyGT {a b : ℚ × ℕ} (h : keyGT a b) : keyGE a b := by
  rcases h with h | ⟨h1, h2⟩
  · exact Or.inl h
  · exact Or.inr ⟨h1, le_of_lt h2⟩

theorem keyGE_of_not_keyGT {a b : ℚ × ℕ} (h : ¬ keyGT a b) : keyGE b a := by
  unfold keyGT at h
  push_neg at h
  rcases lt_trichotomy a.1 b.1 with h1 | h1 | h1
  · exact Or.inl h1
  · exact Or.inr ⟨h1.symm, h.2 h1⟩
  · exact absurd h1 (not_lt.mpr h.1)

theorem keyGE_trans {a b c : ℚ × ℕ} (h1 : keyGE a b) (h2 : keyGE b c) : keyGE a c := by
  rcases h1 with h1 | ⟨h1e, h1n⟩
  · rcases h2 with h2 | ⟨h2e, h2n⟩
    · exact Or.inl (h2.trans h1)
    · exact Or.inl (h2e ▸ h1)
  · rcases h2 with h2 | ⟨h2e, h2n⟩
    · exact Or.inl (h1e ▸ h2)
    · exact Or.inr ⟨h1e.trans h2e, h2n.trans h1n⟩

/-- The pairwise relation the descending entry sort establishes. -/
def entryGE (e1 e2 : ℚ × ℕ × String) : Prop := keyGE (entryKey e1) (entryKey e2)

theorem insEntry_perm (x : ℚ × ℕ × String) (l : List (ℚ × ℕ × String)) :
    List.Perm (insEntry x l) (x :: l) := by
  induction l with
  | nil => rfl
  | cons y ys ih =>
    by_cases h : keyGT (entryKey y) (entryKey x)
    · simp only [insEntry, if_pos h]
      exact (ih.cons y).trans (List.Perm.swap x y ys)
    · simp only [insEntry, if_neg h]
      exact List.Perm.refl _

theorem insEntry_sorted (x : ℚ × ℕ × String) (l : List (ℚ × ℕ × String))
    (h : l.Pairwise entryGE) : (insEntry x l).Pairwise entryGE := by
  induction l with
  | nil => simp [insEntry]
  | cons y ys ih =>
    rcases List.pairwise_cons.mp h with ⟨hy, hys⟩
    by_cases hxy : keyGT (entryKey y) (entryKey x)
    · simp only [insEntry, if_pos hxy]
      refine List.pairwise_cons.mpr ⟨?_, ih hys⟩
      intro b hb
      rcases List.mem_cons.mp ((insEntry_perm x ys).mem_iff.mp hb) with hb' | hb'
      · subst hb'
        exact keyGE_of_keyGT hxy
      · exact hy b hb'
    · simp only [insEntry, if_neg hxy]
      refine List.pairwise_cons.mpr ⟨?_, h⟩
      intro b hb
      rcases List.mem_cons.mp hb with hb' | hb'
      · subst hb'
        exact keyGE_of_not_keyGT hxy
      · exact keyGE_trans (keyGE_of_not_keyGT hxy) (hy b hb')

theorem sortEntriesDesc_perm (l : List (ℚ × ℕ × String)) :
    List.Perm (sortEntriesDesc l) l := by
  induction l with
  | nil => rfl
  | cons x xs ih => exact (insEntry_perm x (sortEntriesDesc xs)).trans (ih.cons x)

theorem sortEntriesDesc_sorted (l : List (ℚ × ℕ × String)) :
    (sortEntriesDesc l).Pairwise entryGE := by
  induction l with
  | nil => simp [sortEntriesDesc]
  | cons x xs ih => exact insEntry_sorted x (sortEntriesDesc xs) ih

/-- The internal ranking triples of `rank_criticality`. -/
def rankEntries (sim : Simulator) : List (ℚ × ℕ × String) :=
  sim.graph.nodes.map (fun p =>
    (((p.2.criticality.getD 5 + ((sim.graph.inDegree p.1 : Int)) : Int) : ℚ),
      (descendantsOf sim.graph p.1).card, p.1))

theorem rank_criticality_eq (sim : Simulator) (affected_ids : Option (Finset String))
    (top_n : ℕ) :
    sim.rank_criticality affected_ids top_n
      = ((sortEntriesDesc (rankEntries sim)).take top_n).map (fun e =>
          { component_id := e.2.2,
            component_name := sim.graph.getName e.2.2,
            component_type := sim.graph.getType e.2.2 ("Unknown"),
            criticality_score := e.1,
            affected := e.2.2 ∈ affected_ids.getD ∅ }) := rfl

theorem mem_rankEntries_desc {sim : Simulator} {e : ℚ × ℕ × String}
    (he : e ∈ rankEntries sim) : e.2.1 = (descendantsOf sim.graph e.2.2).card := by
  rcases List.mem_map.mp he with ⟨p, _, hpe⟩
  rw [← hpe]

/-- **C3.** `rank_criticality` output is sorted descending by the pair
`(composite, descendant_count)` where the descendant count of an entry is
the size of its component's forward-reachable set excluding itself; in
particular `criticality_score` is non-increasing.  The output length is
`min N top_n` (every node appears when `N ≤ top_n`); each entry's composite
is its node's stored criticality plus its in-degree; and each `affected`
flag is true iff the component id belongs to the supplied set (hence all
false for an absent or empty set). -/
theorem c3_rank_criticality_spec (sim : Simulator) (affected_ids : Option (Finset String))
    (top_n : ℕ) :
    (sim.rank_criticality affected_ids top_n).Pairwise (fun e1 e2 =>
      keyGE (e1.criticality_score, (descendantsOf sim.graph e1.component_id).card)
        (e2.criticality_score, (descendantsOf sim.graph e2.component_id).card)) ∧
    (sim.rank_criticality affected_ids top_n).Pairwise (fun e1 e2 =>
      e2.criticality_score ≤ e1.criticality_score) ∧
    (sim.rank_criticality affected_ids top_n).length = min top_n sim.graph.numberOfNodes ∧
    (sim.graph.numberOfNodes ≤ top_n → ∀ nid ∈ sim.graph.nodeIds,
      ∃ e ∈ sim.rank_criticality affected_ids top_n, e.component_id = nid) ∧
    (∀ e ∈ sim.rank_criticality affected_ids top_n,
      ∃ p ∈ sim.graph.nodes, p.1 = e.component_id ∧
        e.criticality_score
          = ((p.2.criticality.getD 5 + ((sim.graph.inDegree p.1 : Int)) : Int) : ℚ)) ∧
    (∀ e ∈ sim.rank_criticality affected_ids top_n,
      e.affected = true ↔ e.component_id ∈ affected_ids.getD ∅) := by
  have hperm := sortEntriesDesc_perm (rankEntries sim)
  have hsorted := sortEntriesDesc_sorted (rankEntries sim)
  have htakeSub : List.Sublist ((sortEntriesDesc (rankEntries sim)).take top_n)
      (sortEntriesDesc (rankEntries sim)) := List.take_sublist _ _
  have htake : ((sortEntriesDesc (rankEntries sim)).take top_n).Pairwise entryGE :=
    hsorted.sublist htakeSub
  have hmemEntries : ∀ e ∈ (sortEntriesDesc (rankEntries sim)).take top_n,
      e ∈ rankEntries sim := fun e he =>
    hperm.mem_iff.mp (htakeSub.mem he)
  rw [rank_criticality_eq]
  refine ⟨?_, ?_, ?_, ?_, ?_, ?_⟩
  · rw [List.pairwise_map]
    refine htake.imp_of_mem ?_
    intro a b ha hb hab
    have hda := mem_rankEntries_desc (hmemEntries a ha)
    have hdb := mem_rankEntries_desc (hmemEntries b hb)
    simpa [entryGE, entryKey, ← hda, ← hdb] using hab
  · rw [List.pairwise_map]
    refine htake.imp ?_
    intro a b hab
    rcases hab with h | ⟨h, _⟩
    · exact le_of_lt h
    · exact le_of_eq h.symm
  · rw [List.length_map, List.length_take, hperm.length_eq]
    unfold rankEntries DiGraph.numberOfNodes
    rw [List.length_map]
  · intro hN nid hnid
    have : ∃ p ∈ sim.graph.nodes, p.1 = nid := by
      rcases List.mem_map.mp hnid with ⟨p, hp, hpn⟩
      exact ⟨p, hp, hpn⟩
    rcases this with ⟨p, hp, hpn⟩
    have hentry : (((p.2.criticality.getD 5 + ((sim.graph.inDegree p.1 : Int)) : Int) : ℚ),
        (descendantsOf sim.graph p.1).card, p.1) ∈ rankEntries sim :=
      List.mem_map.mpr ⟨p, hp, rfl⟩
    have hsortedMem := hperm.mem_iff.mpr hentry
    have hlen : (sortEntriesDesc (rankEntries sim)).length ≤ top_n := by
      rw [hperm.length_eq]
      unfold rankEntries
      rw [List.length_map]
      exact hN
    rw [List.take_of_length_le hlen]
    refine ⟨_, List.mem_map.mpr ⟨_, hsortedMem, rfl⟩, hpn⟩
  · intro e he
    rcases List.mem_map.mp he with ⟨tr, htr, hte⟩
    rcases List.mem_map.mp (hmemEntries tr htr) with ⟨p, hp, hptr⟩
    refine ⟨p, hp, ?_, ?_⟩
    · rw [← hte, ← hptr]
    · rw [← hte, ← hptr]
  · intro e he
    rcases List.mem_map.mp he with ⟨tr, _, hte⟩
    rw [← hte]
    simp

/-- Witness for C3: applying the theorem on the linear fixture with the
affected set `{"A"}` and the default `top_n = 10`; all three nodes appear. -/
theorem c3_witness :
    (simLinear.graph.numberOfNodes ≤ 10 ∧ "B" ∈ simLinear.graph.nodeIds) ∧
    (∃ e ∈ simLinear.rank_criticality (some {"A"}) 10, e.component_id = "B") := by
  have h := (c3_rank_criticality_spec simLinear (some {"A"}) 10).2.2.2.1
  refine ⟨⟨by decide, by decide⟩, h (by decide) "B" (by decide)⟩

/-! ### C9 / C10: last-write-wins lookup lemmas -/

/-- The ordered endpoint pair of a flow. -/
def pairOf (f : DataFlowSchema) : String × String := (f.source, f.target)

/-- The last flow in the list with the given ordered endpoint pair. -/
def lastFlowFor (fs : List DataFlowSchema) (u v : String) : Option DataFlowSchema :=
  (fs.filter (fun f => pairOf f = (u, v))).getLast?

/-- The last component in the list with the given id. -/
def lastComponentFor (cs : List ComponentSchema) (nid : String) : Option ComponentSchema :=
  (cs.filter (fun c => c.id = nid)).getLast?

theorem ensureNode_edges (g : DiGraph) (n : String) : (ensureNode g n).edges = g.edges := by
  unfold ensureNode
  by_cases h : n ∈ g.nodeIds
  · rw [if_pos h]
  · rw [if_neg h]

theorem addComponents_edges (cs : List ComponentSchema) :
    ∀ g : DiGraph, (addComponents g cs).edges = g.edges := by
  induction cs with
  | nil => intro g; rfl
  | cons c cs ih =>
    intro g
    show (addComponents (addNode g c.id (mkNodeAttrs c)) cs).edges = g.edges
    rw [ih]
    unfold addNode
    by_cases h : c.id ∈ g.nodeIds
    · rw [if_pos h]
    · rw [if_neg h]

theorem find?_update_self {α β : Type} [DecidableEq α] [BEq α] [LawfulBEq α]
    (es : List (α × β)) (k : α)
    (a : β) (hk : k ∈ es.map Prod.fst) :
    (es.map (fun e => if e.1 = k then (k, a) else e)).find? (fun e => e.1 == k)
      = some (k, a) := by
  induction es with
  | nil => simp at hk
  | cons e es ih =>
    by_cases he : e.1 = k
    · simp only [List.map_cons, if_pos he]
      rw [List.find?_cons_of_pos _ (by simp)]
    · simp only [List.map_cons, if_neg he]
      rw [List.find?_cons_of_neg _ (by simp [he])]
      refine ih ?_
      simp only [List.map_cons, List.mem_cons] at hk
      rcases hk with h | h
      · exact absurd h.symm he
      · exact h

theorem find?_update_other {α β : Type} [DecidableEq α] [BEq α] [LawfulBEq α]
    (es : List (α × β)) (k k' : α)
    (a : β) (h : k' ≠ k) :
    (es.map (fun e => if e.1 = k then (k, a) else e)).find? (fun e => e.1 == k')
      = es.find? (fun e => e.1 == k') := by
  induction es with
  | nil => rfl
  | cons e es ih =>
    by_cases he : e.1 = k
    · simp only [List.map_cons, if_pos he]
      rw [List.find?_cons_of_neg _ (by simpa using Ne.symm h),
        List.find?_cons_of_neg _ (by simpa [he] using Ne.symm h), ih]
    · simp only [List.map_cons, if_neg he]
      by_cases he' : e.1 = k'
      · rw [List.find?_cons_of_pos _ (by simp [he']), List.find?_cons_of_pos _ (by simp [he'])]
      · rw [List.find?_cons_of_neg _ (by simp [he']), List.find?_cons_of_neg _ (by simp [he']),
          ih]

theorem find?_append_eq {γ : Type} (l₁ l₂ : List γ) (p : γ → Bool) :
    (l₁ ++ l₂).find? p
      = match l₁.find? p with
        | some x => some x
        | none => l₂.find? p := by
  induction l₁ with
  | nil => rfl
  | cons x l₁ ih =>
    by_cases hx : p x
    · rw [List.cons_append, List.find?_cons_of_pos _ hx, List.find?_cons_of_pos _ hx]
    · rw [List.cons_append, List.find?_cons_of_neg _ (by simpa using hx),
        List.find?_cons_of_neg _ (by simpa using hx), ih]

theorem addEdge_edges_cases (g : DiGraph) (u v : String) (a : EdgeAttrs) :
    (addEdge g u v a).edges
      = if (u, v) ∈ g.edgeKeys then
          g.edges.map (fun e => if e.1 = (u, v) then ((u, v), a) else e)
        else g.edges ++ [((u, v), a)] := by
  unfold addEdge
  have hkeys : (ensureNode (ensureNode g u) v).edgeKeys = g.edgeKeys := by
    unfold DiGraph.edgeKeys
    rw [ensureNode_edges, ensureNode_edges]
  by_cases hk : (u, v) ∈ g.edgeKeys
  · rw [if_pos (by rw [hkeys]; exact hk), if_pos hk]
    rw [ensureNode_edges, ensureNode_edges]
  · rw [if_neg (by rw [hkeys]; exact hk), if_neg hk]
    rw [ensureNode_edges, ensureNode_edges]

theorem addEdge_edgeLookup_self (g : DiGraph) (u v : String) (a : EdgeAttrs) :
    (addEdge g u v a).edgeLookup u v = some a := by
  unfold DiGraph.edgeLookup
  rw [addEdge_edges_cases]
  by_cases hk : (u, v) ∈ g.edgeKeys
  · rw [if_pos hk, find?_update_self _ _ _ hk]
    rfl
  · rw [if_neg hk, find?_append_eq]
    have hnone : g.edges.find? (fun e => e.1 == (u, v)) = none := by
      rw [List.find?_eq_none]
      intro e he hbeq
      refine hk ?_
      have : e.1 = (u, v) := by simpa using hbeq
      exact this ▸ List.mem_map.mpr ⟨e, he, rfl⟩
    rw [hnone]
    rw [List.find?_cons_of_pos _ (by simp)]
    rfl

theorem addEdge_edgeLookup_other (g : DiGraph) (u v u' v' : String) (a : EdgeAttrs)
    (h : (u', v') ≠ (u, v)) :
    (addEdge g u v a).edgeLookup u' v' = g.edgeLookup u' v' := by
  unfold DiGraph.edgeLookup
  rw [addEdge_edges_cases]
  by_cases hk : (u, v) ∈ g.edgeKeys
  · rw [if_pos hk, find?_update_other _ _ _ _ h]
  · rw [if_neg hk, find?_append_eq]
    cases hfind : g.edges.find? (fun e => e.1 == (u', v')) with
    | some e => rfl
    | none =>
      rw [List.find?_cons_of_neg _ (by simpa using h.symm)]
      rfl

theorem getLast?_cons_ne_none {α : Type} (x : α) (xs : List α) :
    (x :: xs).getLast? ≠ none := by
  induction xs generalizing x with
  | nil => simp
  | cons y ys ih =>
    rw [List.getLast?_cons_cons]
    exact ih y

theorem lastFlowFor_cons (f : DataFlowSchema) (fs : List DataFlowSchema) (u v : String) :
    lastFlowFor (f :: fs) u v
      = match lastFlowFor fs u v with
        | some f0 => some f0
        | none => if pairOf f = (u, v) then some f else none := by
  unfold lastFlowFor
  rw [List.filter_cons]
  by_cases hp : pairOf f = (u, v)
  · rw [if_pos (by simpa using hp), if_pos hp]
    cases hl : fs.filter (fun f => decide (pairOf f = (u, v))) with
    | nil => rfl
    | cons x xs =>
      rw [List.getLast?_cons_cons]
      cases hx : (x :: xs).getLast? with
      | none => exact absurd hx (getLast?_cons_ne_none x xs)
      | some y => rfl
  · rw [if_neg (by simpa using hp), if_neg hp]
    cases hl : (fs.filter (fun f => decide (pairOf f = (u, v)))).getLast? with
    | none => rfl
    | some y => rfl

theorem addFlows_ok_edgeLookup {ids : List String} {fs : List DataFlowSchema} :
    ∀ {g g' : DiGraph}, addFlows ids g fs = .ok g' → ∀ u v,
      g'.edgeLookup u v
        = match lastFlowFor fs u v with
          | some f => some (mkEdgeAttrs f)
          | none => g.edgeLookup u v := by
  induction fs with
  | nil =>
    intro g g' h u v
    simp only [addFlows] at h
    cases h
    rfl
  | cons f fs ih =>
    intro g g' h u v
    simp only [addFlows] at h
    by_cases hs : f.source ∈ ids
    · by_cases ht : f.target ∈ ids
      · rw [if_neg (by simpa using hs), if_neg (by simpa using ht)] at h
        have hrec := ih h u v
        rw [lastFlowFor_cons]
        cases hl : lastFlowFor fs u v with
        | some f0 =>
          rw [hrec, hl]
        | none =>
          rw [hrec, hl]
          by_cases hp : pairOf f = (u, v)
          · rw [if_pos hp]
            have hu : f.source = u := congrArg Prod.fst hp
            have hv : f.target = v := congrArg Prod.snd hp
            rw [← hu, ← hv]
            exact addEdge_edgeLookup_self g f.source f.target (mkEdgeAttrs f)
          · rw [if_neg hp]
            exact addEdge_edgeLookup_other g f.source f.target u v (mkEdgeAttrs f)
              (fun he => hp (by simpa [pairOf] using he.symm))
      · rw [if_neg (by simpa using hs), if_pos (by simpa using ht)] at h
        cases h
    · rw [if_pos (by simpa using hs)] at h
      cases h

theorem addEdge_edgeKeys_cases (g : DiGraph) (u v : String) (a : EdgeAttrs) :
    (addEdge g u v a).edgeKeys
      = if (u, v) ∈ g.edgeKeys then g.edgeKeys else g.edgeKeys ++ [(u, v)] := by
  unfold DiGraph.edgeKeys
  rw [addEdge_edges_cases]
  by_cases hk : (u, v) ∈ g.edgeKeys
  · rw [if_pos hk, if_pos (by exact hk)]
    rw [List.map_map]
    refine List.map_congr_left ?_
    intro e _
    by_cases he : e.1 = (u, v)
    · simp [Function.comp, he]
    · simp [Function.comp, he]
  · rw [if_neg hk, if_neg (by exact hk)]
    simp

theorem addEdge_edgeKeys_nodup {g : DiGraph} {u v : String} {a : EdgeAttrs}
    (h : g.edgeKeys.Nodup) : (addEdge g u v a).edgeKeys.Nodup := by
  rw [addEdge_edgeKeys_cases]
  by_cases hk : (u, v) ∈ g.edgeKeys
  · rw [if_pos hk]; exact h
  · rw [if_neg hk]
    rw [List.nodup_append]
    exact ⟨h, List.nodup_singleton _, by simpa using fun hx => hk hx⟩

theorem addEdge_edgeKeys_toFinset (g : DiGraph) (u v : String) (a : EdgeAttrs) :
    (addEdge g u v a).edgeKeys.toFinset = insert (u, v) g.edgeKeys.toFinset := by
  rw [addEdge_edgeKeys_cases]
  by_cases hk : (u, v) ∈ g.edgeKeys
  · rw [if_pos hk]
    exact (Finset.insert_eq_self.mpr (List.mem_toFinset.mpr hk)).symm
  · rw [if_neg hk]
    ext x
    simp [or_comm]

theorem addFlows_ok_edgeKeys {ids : List String} {fs : List DataFlowSchema} :
    ∀ {g g' : DiGraph}, addFlows ids g fs = .ok g' →
      g'.edgeKeys.toFinset = g.edgeKeys.toFinset ∪ (fs.map pairOf).toFinset
        ∧ (g.edgeKeys.Nodup → g'.edgeKeys.Nodup) := by
  induction fs with
  | nil =>
    intro g g' h
    simp only [addFlows] at h
    cases h
    exact ⟨by simp, fun h => h⟩
  | cons f fs ih =>
    intro g g' h
    simp only [addFlows] at h
    by_cases hs : f.source ∈ ids
    · by_cases ht : f.target ∈ ids
      · rw [if_neg (by simpa using hs), if_neg (by simpa using ht)] at h
        rcases ih h with ⟨hset, hnd⟩
        constructor
        · rw [hset, addEdge_edgeKeys_toFinset]
          ext x
          simp only [Finset.mem_union, Finset.mem_insert, List.mem_toFinset,
            List.map_cons, List.mem_cons]
          unfold pairOf
          tauto
        · intro hg
          exact hnd (addEdge_edgeKeys_nodup hg)
      · rw [if_neg (by simpa using hs), if_pos (by simpa using ht)] at h
        cases h
    · rw [if_pos (by simpa using hs)] at h
      cases h

theorem addFlows_ok_of_valid {ids : List String} {fs : List DataFlowSchema}
    (hvalid : ∀ f ∈ fs, f.source ∈ ids ∧ f.target ∈ ids) :
    ∀ g : DiGraph, ∃ g', addFlows ids g fs = .ok g' := by
  induction fs with
  | nil => intro g; exact ⟨g, rfl⟩
  | cons f fs ih =>
    intro g
    have hf := hvalid f (List.mem_cons_self _ _)
    rcases ih (fun f' hf' => hvalid f' (List.mem_cons_of_mem _ hf'))
      (addEdge g f.source f.target (mkEdgeAttrs f)) with ⟨g', hg'⟩
    refine ⟨g', ?_⟩
    show addFlows ids g (f :: fs) = .ok g'
    simp only [addFlows]
    rw [if_neg (by simpa using hf.1), if_neg (by simpa using hf.2)]
    exact hg'

/-- A non-empty architecture whose flows all reference declared components
builds successfully. -/
theorem mkSimulator_ok_of_valid (arch : ArchitectureSchema)
    (hne : arch.components ≠ [])
    (hvalid : ∀ f ∈ arch.flows, f.source ∈ arch.components.map (fun c => c.id)
      ∧ f.target ∈ arch.components.map (fun c => c.id)) :
    ∃ sim, mkSimulator arch = .ok sim := by
  rcases addFlows_ok_of_valid hvalid (addComponents ⟨[], []⟩ arch.components) with ⟨g', hg'⟩
  refine ⟨⟨arch, g'⟩, ?_⟩
  unfold mkSimulator
  rw [if_neg (by simpa [List.isEmpty_iff] using hne)]
  unfold buildGraph
  rw [hg']
  rfl

/-- Built-simulator edge lookup: last write wins over the flow list. -/
theorem mkSimulator_edgeLookup {arch : ArchitectureSchema} {sim : Simulator}
    (h : mkSimulator arch = .ok sim) (u v : String) :
    sim.graph.edgeLookup u v
      = match lastFlowFor arch.flows u v with
        | some f => some (mkEdgeAttrs f)
        | none => none := by
  unfold mkSimulator at h
  by_cases he : arch.components.isEmpty
  · rw [if_pos he] at h; cases h
  · rw [if_neg he] at h
    unfold buildGraph at h
    cases hb : addFlows (arch.components.map (fun c => c.id))
        (addComponents ⟨[], []⟩ arch.components) arch.flows with
    | error e => rw [hb] at h; cases h
    | ok g' =>
      rw [hb] at h
      cases h
      have hlook := addFlows_ok_edgeLookup hb u v
      have hbase : (addComponents (⟨[], []⟩ : DiGraph) arch.components).edgeLookup u v
          = none := by
        unfold DiGraph.edgeLookup
        rw [addComponents_edges]
        rfl
      rw [hlook, hbase]

/-- Built-simulator edge count: one edge per distinct ordered pair. -/
theorem mkSimulator_numberOfEdges {arch : ArchitectureSchema} {sim : Simulator}
    (h : mkSimulator arch = .ok sim) :
    sim.graph.numberOfEdges = (arch.flows.map pairOf).toFinset.card
      ∧ sim.graph.edgeKeys.Nodup := by
  unfold mkSimulator at h
  by_cases he : arch.components.isEmpty
  · rw [if_pos he] at h; cases h
  · rw [if_neg he] at h
    unfold buildGraph at h
    cases hb : addFlows (arch.components.map (fun c => c.id))
        (addComponents ⟨[], []⟩ arch.components) arch.flows with
    | error e => rw [hb] at h; cases h
    | ok g' =>
      rw [hb] at h
      cases h
      rcases addFlows_ok_edgeKeys hb with ⟨hset, hnd⟩
      have hbase : (addComponents (⟨[], []⟩ : DiGraph) arch.components).edgeKeys = [] := by
        unfold DiGraph.edgeKeys
        rw [addComponents_edges]
        rfl
      have hnd' : g'.edgeKeys.Nodup := hnd (by rw [hbase]; exact List.nodup_nil)
      refine ⟨?_, hnd'⟩
      have hlen : g'.edgeKeys.length = g'.edgeKeys.toFinset.card :=
        (List.toFinset_card_of_nodup hnd').symm
      have hlen2 : g'.edgeKeys.length = g'.edges.length := List.length_map _ _
      rw [hset, hbase] at hlen
      unfold DiGraph.numberOfEdges
      rw [← hlen2, hlen]
      simp

theorem addNode_nodes_cases (g : DiGraph) (n : String) (a : NodeAttrs) :
    (addNode g n a).nodes
      = if n ∈ g.nodeIds then g.nodes.map (fun p => if p.1 = n then (n, a) else p)
        else g.nodes ++ [(n, a)] := by
  unfold addNode
  by_cases h : n ∈ g.nodeIds
  · rw [if_pos h, if_pos h]
  · rw [if_neg h, if_neg h]

theorem addNode_getAttrs_self (g : DiGraph) (n : String) (a : NodeAttrs) :
    (addNode g n a).getAttrs n = some a := by
  unfold DiGraph.getAttrs
  rw [addNode_nodes_cases]
  by_cases h : n ∈ g.nodeIds
  · rw [if_pos h, find?_update_self _ _ _ h]
    rfl
  · rw [if_neg h, find?_append_eq]
    have hnone : g.nodes.find? (fun p => p.1 == n) = none := by
      rw [List.find?_eq_none]
      intro p hp hbeq
      refine h ?_
      have : p.1 = n := by simpa using hbeq
      exact this ▸ List.mem_map.mpr ⟨p, hp, rfl⟩
    rw [hnone]
    rw [List.find?_cons_of_pos _ (by simp)]
    rfl

theorem addNode_getAttrs_other (g : DiGraph) (n n' : String) (a : NodeAttrs)
    (h : n' ≠ n) : (addNode g n a).getAttrs n' = g.getAttrs n' := by
  unfold DiGraph.getAttrs
  rw [addNode_nodes_cases]
  by_cases hk : n ∈ g.nodeIds
  · rw [if_pos hk, find?_update_other _ _ _ _ h]
  · rw [if_neg hk, find?_append_eq]
    cases hfind : g.nodes.find? (fun p => p.1 == n') with
    | some p => rfl
    | none =>
      rw [List.find?_cons_of_neg _ (by simpa using h.symm)]
      rfl

theorem lastComponentFor_cons (c : ComponentSchema) (cs : List ComponentSchema)
    (nid : String) :
    lastComponentFor (c :: cs) nid
      = match lastComponentFor cs nid with
        | some c0 => some c0
        | none => if c.id = nid then some c else none := by
  unfold lastComponentFor
  rw [List.filter_cons]
  by_cases hp : c.id = nid
  · rw [if_pos (by simpa using hp), if_pos hp]
    cases hl : cs.filter (fun c => decide (c.id = nid)) with
    | nil => rfl
    | cons x xs =>
      rw [List.getLast?_cons_cons]
      cases hx : (x :: xs).getLast? with
      | none => exact absurd hx (getLast?_cons_ne_none x xs)
      | some y => rfl
  · rw [if_neg (by simpa using hp), if_neg hp]
    cases hl : (cs.filter (fun c => decide (c.id = nid))).getLast? with
    | none => rfl
    | some y => rfl

theorem addComponents_getAttrs {cs : List ComponentSchema} :
    ∀ {g : DiGraph} (nid : String),
      (addComponents g cs).getAttrs nid
        = match lastComponentFor cs nid with
          | some c => some (mkNodeAttrs c)
          | none => g.getAttrs nid := by
  induction cs with
  | nil => intro g nid; rfl
  | cons c cs ih =>
    intro g nid
    show (addComponents (addNode g c.id (mkNodeAttrs c)) cs).getAttrs nid = _
    rw [ih, lastComponentFor_cons]
    cases hl : lastComponentFor cs nid with
    | some c0 => rfl
    | none =>
      by_cases hp : c.id = nid
      · rw [if_pos hp, ← hp, addNode_getAttrs_self]
      · rw [if_neg hp, addNode_getAttrs_other _ _ _ _ (fun he => hp he.symm)]

theorem ensureNode_getAttrs_of_mem {g : DiGraph} {nid : String} (n : String)
    (h : nid ∈ g.nodeIds) : (ensureNode g n).getAttrs nid = g.getAttrs nid := by
  unfold ensureNode
  by_cases hn : n ∈ g.nodeIds
  · rw [if_pos hn]
  · rw [if_neg hn]
    unfold DiGraph.getAttrs
    show ((g.nodes ++ [(n, emptyAttrs)]).find? (fun p => p.1 == nid)).map Prod.snd = _
    rw [find?_append_eq]
    have hsome : (g.nodes.find? (fun p => p.1 == nid)).isSome := by
      rw [List.find?_isSome]
      rcases List.mem_map.mp h with ⟨p, hp, hpn⟩
      exact ⟨p, hp, by simp [hpn]⟩
    cases hfind : g.nodes.find? (fun p => p.1 == nid) with
    | some p => rfl
    | none => rw [hfind] at hsome; cases hsome

theorem addEdge_nodes_eq (g : DiGraph) (u v : String) (a : EdgeAttrs) :
    (addEdge g u v a).nodes = (ensureNode (ensureNode g u) v).nodes := by
  unfold addEdge
  by_cases hk : (u, v) ∈ (ensureNode (ensureNode g u) v).edgeKeys
  · rw [if_pos hk]
  · rw [if_neg hk]

theorem addEdge_getAttrs_of_mem {g : DiGraph} {nid : String} (u v : String) (a : EdgeAttrs)
    (h : nid ∈ g.nodeIds) : (addEdge g u v a).getAttrs nid = g.getAttrs nid := by
  have h1 : nid ∈ (ensureNode g u).nodeIds := mem_ensureNode_nodeIds.mpr (Or.inl h)
  have e1 : (addEdge g u v a).getAttrs nid
      = (ensureNode (ensureNode g u) v).getAttrs nid := by
    unfold DiGraph.getAttrs
    rw [addEdge_nodes_eq]
  rw [e1, ensureNode_getAttrs_of_mem v h1, ensureNode_getAttrs_of_mem u h]

theorem addFlows_ok_getAttrs {ids : List String} {fs : List DataFlowSchema} :
    ∀ {g g' : DiGraph}, addFlows ids g fs = .ok g' →
      ∀ nid ∈ g.nodeIds, g'.getAttrs nid = g.getAttrs nid := by
  induction fs with
  | nil =>
    intro g g' h nid _
    simp only [addFlows] at h
    cases h
    rfl
  | cons f fs ih =>
    intro g g' h nid hnid
    simp only [addFlows] at h
    by_cases hs : f.source ∈ ids
    · by_cases ht : f.target ∈ ids
      · rw [if_neg (by simpa using hs), if_neg (by simpa using ht)] at h
        have hmem : nid ∈ (addEdge g f.source f.target (mkEdgeAttrs f)).nodeIds :=
          addEdge_nodes_set.mpr (Or.inl hnid)
        rw [ih h nid hmem, addEdge_getAttrs_of_mem _ _ _ hnid]
      · rw [if_neg (by simpa using hs), if_pos (by simpa using ht)] at h
        cases h
    · rw [if_pos (by simpa using hs)] at h
      cases h

/-- Built-simulator node attributes: last write wins over the component
list. -/
theorem mkSimulator_getAttrs {arch : ArchitectureSchema} {sim : Simulator}
    (h : mkSimulator arch = .ok sim) {nid : String} {c : ComponentSchema}
    (hc : lastComponentFor arch.components nid = some c) :
    sim.graph.getAttrs nid = some (mkNodeAttrs c) := by
  unfold mkSimulator at h
  by_cases he : arch.components.isEmpty
  · rw [if_pos he] at h; cases h
  · rw [if_neg he] at h
    unfold buildGraph at h
    cases hb : addFlows (arch.components.map (fun c => c.id))
        (addComponents ⟨[], []⟩ arch.components) arch.flows with
    | error e => rw [hb] at h; cases h
    | ok g' =>
      rw [hb] at h
      cases h
      have hcomp : (addComponents (⟨[], []⟩ : DiGraph) arch.components).getAttrs nid
          = some (mkNodeAttrs c) := by
        rw [addComponents_getAttrs, hc]
      have hcmem : c ∈ arch.components ∧ c.id = nid := by
        unfold lastComponentFor at hc
        have hx : c ∈ (arch.components.filter (fun c => decide (c.id = nid))).getLast? := by
          rw [Option.mem_def]; exact hc
        rcases List.mem_getLast?_eq_getLast hx with ⟨hne', heq⟩
        have hmem := List.mem_filter.mp (heq ▸ List.getLast_mem hne')
        exact ⟨hmem.1, by simpa using hmem.2⟩
      have hnid : nid ∈ (addComponents (⟨[], []⟩ : DiGraph) arch.components).nodeIds := by
        rw [addComponents_nodeIds_set]
        right
        exact List.mem_map.mpr ⟨c, hcmem.1, hcmem.2⟩
      rw [addFlows_ok_getAttrs hb nid hnid, hcomp]

/-- Built-simulator node count: one node per distinct component id. -/
theorem mkSimulator_numberOfNodes {arch : ArchitectureSchema} {sim : Simulator}
    (h : mkSimulator arch = .ok sim) :
    sim.graph.numberOfNodes = (arch.components.map (fun c => c.id)).toFinset.card := by
  have hnodup := mkSimulator_nodeIds_nodup h
  have hset : sim.graph.nodeIds.toFinset = (arch.components.map (fun c => c.id)).toFinset := by
    ext x
    rw [List.mem_toFinset, List.mem_toFinset]
    exact mkSimulator_nodeIds_set h x
  have h1 : sim.graph.numberOfNodes = sim.graph.nodeIds.length := by
    unfold DiGraph.numberOfNodes DiGraph.nodeIds
    rw [List.length_map]
  rw [h1, ← List.toFinset_card_of_nodup hnodup, hset]

/-! ### C9: duplicate flows collapse, last write wins -/

/-- **C9.** For an architecture whose components are declared and whose
flows all reference declared endpoints (construction succeeds — the claim's
implicit well-formedness), any built simulator stores at most one edge per
ordered pair: the edge count is the number of distinct `(source, target)`
pairs (not the number of flows), the stored edge keys are duplicate-free,
and for every pair occurring among the flows the stored metadata (flow id,
data type, CIA requirement, latency sensitivity) is that of the **last**
flow in the list with that pair. -/
theorem c9_duplicate_flows_last_write_wins (arch : ArchitectureSchema)
    (hne : arch.components ≠ [])
    (hvalid : ∀ f ∈ arch.flows, f.source ∈ arch.components.map (fun c => c.id)
      ∧ f.target ∈ arch.components.map (fun c => c.id)) :
    (∃ sim, mkSimulator arch = .ok sim) ∧
    (∀ sim, mkSimulator arch = .ok sim →
      sim.graph.edgeKeys.Nodup ∧
      sim.graph.numberOfEdges = (arch.flows.map pairOf).toFinset.card ∧
      (∀ u v, (∃ f ∈ arch.flows, pairOf f = (u, v)) →
        ∃ f, lastFlowFor arch.flows u v = some f ∧
          sim.graph.edgeLookup u v = some (mkEdgeAttrs f))) := by
  refine ⟨mkSimulator_ok_of_valid arch hne hvalid, ?_⟩
  intro sim hsim
  rcases mkSimulator_numberOfEdges hsim with ⟨hcount, hnd⟩
  refine ⟨hnd, hcount, ?_⟩
  intro u v ⟨f, hf, hp⟩
  have hne2 : arch.flows.filter (fun f => decide (pairOf f = (u, v))) ≠ [] := by
    intro hnil
    have : f ∈ arch.flows.filter (fun f => decide (pairOf f = (u, v))) :=
      List.mem_filter.mpr ⟨hf, by simpa using hp⟩
    rw [hnil] at this
    cases this
  cases hl : lastFlowFor arch.flows u v with
  | none =>
    unfold lastFlowFor at hl
    cases hfl : arch.flows.filter (fun f => decide (pairOf f = (u, v))) with
    | nil => exact absurd hfl hne2
    | cons x xs =>
      rw [hfl] at hl
      exact absurd hl (getLast?_cons_ne_none x xs)
  | some f0 =>
    refine ⟨f0, rfl, ?_⟩
    rw [mkSimulator_edgeLookup hsim u v, hl]

/-- Architecture with two flows sharing the ordered pair (A, B): the second
flow's metadata must win. -/
def archDupFlows : ArchitectureSchema :=
  { id := some 1, name := "DupFlows",
    components := [compW "A" "A" ("Sensor") 5, compW "B" "B" ("Compute") 5],
    flows := [{ id := "f1", source := "A", target := "B", data_type := some "telemetry" },
      { id := "f2", source := "A", target := "B", data_type := some "commands" }] }

/-- Witness for C9: the duplicate-pair architecture builds; the graph has
one edge though two flows were declared, and the stored metadata is the
second flow's. -/
theorem c9_witness :
    (archDupFlows.components ≠ []) ∧
    (∀ f ∈ archDupFlows.flows,
      f.source ∈ archDupFlows.components.map (fun c => c.id)
        ∧ f.target ∈ archDupFlows.components.map (fun c => c.id)) ∧
    mkSimulator archDupFlows = .ok (simOfD archDupFlows) ∧
    archDupFlows.flows.length = 2 ∧
    (simOfD archDupFlows).graph.numberOfEdges
      = (archDupFlows.flows.map pairOf).toFinset.card ∧
    (simOfD archDupFlows).graph.numberOfEdges = 1 ∧
    (∃ f, lastFlowFor archDupFlows.flows "A" "B" = some f ∧
      (simOfD archDupFlows).graph.edgeLookup "A" "B" = some (mkEdgeAttrs f) ∧
      f.id = "f2") := by
  have hne : archDupFlows.components ≠ [] := by decide
  have hvalid : ∀ f ∈ archDupFlows.flows,
      f.source ∈ archDupFlows.components.map (fun c => c.id)
        ∧ f.target ∈ archDupFlows.components.map (fun c => c.id) := by decide
  have hmain := (c9_duplicate_flows_last_write_wins archDupFlows hne hvalid).2
    (simOfD archDupFlows) rfl
  rcases hmain.2.2 "A" "B" ⟨archDupFlows.flows.head (by decide), by decide, by decide⟩
    with ⟨f, hlast, hlook⟩
  refine ⟨hne, hvalid, rfl, rfl, hmain.2.1, rfl, f, hlast, hlook, ?_⟩
  have : lastFlowFor archDupFlows.flows "A" "B"
      = some { id := "f2", source := "A", target := "B", data_type := some "commands" } := rfl
  rw [this] at hlast
  cases hlast
  rfl

/-! ### C10: duplicate component ids collapse, last write wins -/

/-- **C10.** Component-id uniqueness is not validated: a well-referenced
architecture builds successfully even with duplicated component ids; the
node count equals the number of **distinct** component ids, and for every
declared id the stored node attributes (name, type, criticality, position)
are those of the **last** component in the list with that id. -/
theorem c10_duplicate_component_ids (arch : ArchitectureSchema)
    (hne : arch.components ≠ [])
    (hvalid : ∀ f ∈ arch.flows, f.source ∈ arch.components.map (fun c => c.id)
      ∧ f.target ∈ arch.components.map (fun c => c.id)) :
    (∃ sim, mkSimulator arch = .ok sim) ∧
    (∀ sim, mkSimulator arch = .ok sim →
      sim.graph.numberOfNodes = (arch.components.map (fun c => c.id)).toFinset.card ∧
      (∀ nid, (∃ c ∈ arch.components, c.id = nid) →
        ∃ c, lastComponentFor arch.components nid = some c ∧
          sim.graph.getAttrs nid = some (mkNodeAttrs c))) := by
  refine ⟨mkSimulator_ok_of_valid arch hne hvalid, ?_⟩
  intro sim hsim
  refine ⟨mkSimulator_numberOfNodes hsim, ?_⟩
  intro nid ⟨c, hc, hcid⟩
  have hne2 : arch.components.filter (fun c => decide (c.id = nid)) ≠ [] := by
    intro hnil
    have : c ∈ arch.components.filter (fun c => decide (c.id = nid)) :=
      List.mem_filter.mpr ⟨hc, by simpa using hcid⟩
    rw [hnil] at this
    cases this
  cases hl : lastComponentFor arch.components nid with
  | none =>
    unfold lastComponentFor at hl
    cases hfl : arch.components.filter (fun c => decide (c.id = nid)) with
    | nil => exact absurd hfl hne2
    | cons x xs =>
      rw [hfl] at hl
      exact absurd hl (getLast?_cons_ne_none x xs)
  | some c0 =>
    exact ⟨c0, rfl, mkSimulator_getAttrs hsim hl⟩

/-- Architecture declaring the id "A" twice with different attributes. -/
def archDupIds : ArchitectureSchema :=
  { id := some 1, name := "DupIds",
    components := [compW "A" ("First") ("Sensor") 3, compW "A" ("Second") ("Compute") 9],
    flows := [] }

/-- Witness for C10: the duplicate-id architecture builds without error;
its graph has a single node although two components were declared, and the
stored attributes are the second component's. -/
theorem c10_witness :
    (archDupIds.components ≠ []) ∧
    mkSimulator archDupIds = .ok (simOfD archDupIds) ∧
    archDupIds.components.length = 2 ∧
    (simOfD archDupIds).graph.numberOfNodes = 1 ∧
    (∃ c, lastComponentFor archDupIds.components "A" = some c ∧
      (simOfD archDupIds).graph.getAttrs "A" = some (mkNodeAttrs c) ∧
      c.name = "Second") := by
  have hne : archDupIds.components ≠ [] := by decide
  have hvalid : ∀ f ∈ archDupIds.flows,
      f.source ∈ archDupIds.components.map (fun c => c.id)
        ∧ f.target ∈ archDupIds.components.map (fun c => c.id) := by decide
  have hmain := (c10_duplicate_component_ids archDupIds hne hvalid).2
    (simOfD archDupIds) rfl
  rcases hmain.2 "A" ⟨archDupIds.components.head (by decide), by decide, by decide⟩
    with ⟨c, hlast, hattrs⟩
  have hcount : (simOfD archDupIds).graph.numberOfNodes = 1 := by
    rw [hmain.1]
    decide
  refine ⟨hne, rfl, rfl, hcount, c, hlast, hattrs, ?_⟩
  have : lastComponentFor archDupIds.components "A"
      = some (compW "A" ("Second") ("Compute") 9) := rfl
  rw [this] at hlast
  cases hlast
  rfl

/-! ### C7: attack-path BFS properties -/

theorem bfsAux_props (g : DiGraph) (A : Finset String) :
    ∀ (n : ℕ) (visited : Finset String) (queue : List String),
      (A \ visited).card + queue.length = n →
      (∀ p ∈ bfsAux g A visited queue, p.1 ∈ A ∧ p.1 ∉ visited ∧ EdgeRel g p.2 p.1) ∧
      ((bfsAux g A visited queue).map Prod.fst).Nodup := by
  intro n
  induction n using Nat.strong_induction_on with
  | _ n ih =>
    intro visited queue hn
    cases queue with
    | nil =>
      rw [bfsAux]
      exact ⟨by simp, by simp⟩
    | cons current rest =>
      rw [bfsAux]
      have hcard := processSuccs_card A current (g.successors current) visited
      have hfst := processSuccs_fst_eq A current (g.successors current) visited
      have hmem := processSuccs_mem A current (g.successors current) visited
      have hnodup := processSuccs_nodup A current (g.successors current) visited
      set r := processSuccs A current (g.successors current) visited with hr
      have hmeasure : (A \ r.1).card + (rest ++ r.2.map Prod.fst).length < n := by
        rw [List.length_append, List.length_map]
        simp only [List.length_cons] at hn
        omega
      have hrec := ih _ hmeasure r.1 (rest ++ r.2.map Prod.fst) rfl
      constructor
      · intro p hp
        rcases List.mem_append.mp hp with hp | hp
        · rcases hmem p hp with ⟨h1, h2, h3, h4⟩
          refine ⟨h1, h2, ?_⟩
          rw [h4]
          exact mem_successors.mp h3
        · rcases hrec.1 p hp with ⟨h1, h2, h3⟩
          refine ⟨h1, ?_, h3⟩
          intro hv
          exact h2 (by rw [hfst]; exact Finset.mem_union_left _ hv)
      · rw [List.map_append]
        rw [List.nodup_append]
        refine ⟨hnodup, hrec.2, ?_⟩
        intro x hx hx'
        rcases List.mem_map.mp hx' with ⟨p, hp, hpx⟩
        have := (hrec.1 p hp).2.1
        refine this ?_
        rw [hfst]
        exact Finset.mem_union_right _ (List.mem_toFinset.mpr (hpx ▸ hx))

/-- The discovery pairs of the attack-path BFS started at the target. -/
def bfsPairs (g : DiGraph) (A : Finset String) (t : String) : List (String × String) :=
  bfsAux g A {t} [t]

/-- **C7.** For a target in the graph and the affected set computed by
propagation: the attack path always begins with the direct-compromise step
for the target; the remaining numbered steps are the BFS discovery pairs in
first-discovery order, where every discovered node is an affected node
other than the target reached along a stored edge from its discoverer, and
each node is discovered at most once; and a final summary step naming the
total number of compromised components is appended iff more than one
component is affected. -/
theorem c7_build_attack_path_spec (sim : Simulator) (t : String) (A : Finset String)
    (_ht : sim.graph.hasNode t = true) (_hA : A = sim.propagate_compromise t) :
    (sim.build_attack_path t A).head? = some (step1Text sim.graph t) ∧
    sim.build_attack_path t A
      = step1Text sim.graph t :: numberFrom sim.graph 2 (bfsPairs sim.graph A t)
          ++ (if 1 < A.card
              then [summaryText (2 + (bfsPairs sim.graph A t).length) A.card] else []) ∧
    (∀ p ∈ bfsPairs sim.graph A t, p.1 ∈ A ∧ p.1 ≠ t ∧ EdgeRel sim.graph p.2 p.1) ∧
    ((bfsPairs sim.graph A t).map Prod.fst).Nodup ∧
    (1 < A.card → (sim.build_attack_path t A).getLast?
      = some (summaryText (2 + (bfsPairs sim.graph A t).length) A.card)) ∧
    (A.card ≤ 1 → sim.build_attack_path t A
      = step1Text sim.graph t :: numberFrom sim.graph 2 (bfsPairs sim.graph A t)) := by
  have hprops := bfsAux_props sim.graph A ((A \ {t}).card + 1) {t} [t] (by simp)
  have hstruct : sim.build_attack_path t A
      = step1Text sim.graph t :: numberFrom sim.graph 2 (bfsPairs sim.graph A t)
          ++ (if 1 < A.card
              then [summaryText (2 + (bfsPairs sim.graph A t).length) A.card] else []) := by
    unfold Simulator.build_attack_path bfsPairs
    by_cases hc : 1 < A.card
    · rw [if_pos hc, if_pos hc]
    · rw [if_neg hc, if_neg hc]
      simp
  refine ⟨?_, hstruct, ?_, hprops.2, ?_, ?_⟩
  · rw [hstruct]
    rfl
  · intro p hp
    rcases hprops.1 p hp with ⟨h1, h2, h3⟩
    exact ⟨h1, by simpa using h2, h3⟩
  · intro hc
    rw [hstruct, if_pos hc]
    have hgen : ∀ (x : String) (l : List String) (s : String),
        (x :: (l ++ [s])).getLast? = some s := by
      intro x l s
      rw [← List.cons_append, List.getLast?_concat]
    exact hgen _ _ _
  · intro hc
    rw [hstruct, if_neg (by omega)]
    simp

/-- Witness for C7 on the cyclic fixture, target `x` (whole cycle affected):
hypotheses discharged concretely and the head/summary facts instantiated. -/
theorem c7_witness :
    (simCyc.graph.hasNode "x" = true
      ∧ ((simCyc.propagate_compromise "x" : Finset String)
          = simCyc.propagate_compromise "x")
      ∧ 1 < (simCyc.propagate_compromise "x").card)
    ∧ (simCyc.build_attack_path "x" (simCyc.propagate_compromise "x")).head?
        = some (step1Text simCyc.graph "x")
    ∧ (simCyc.build_attack_path "x" (simCyc.propagate_compromise "x")).getLast?
        = some (summaryText
            (2 + (bfsPairs simCyc.graph (simCyc.propagate_compromise "x") "x").length)
            (simCyc.propagate_compromise "x").card) := by
  have h := c7_build_attack_path_spec simCyc "x" (simCyc.propagate_compromise "x") rfl rfl
  have hcard : 1 < (simCyc.propagate_compromise "x").card := by decide
  exact ⟨⟨rfl, rfl, hcard⟩, h.1, h.2.2.2.2.1 hcard⟩

/-! ### C8: explanation string -/

/-- A successful `run_simulation` returns exactly the node-compromise
result for its target, and the target is a graph node. -/
theorem run_simulation_ok_eq {sim : Simulator} {s t : String} {r : SimulationResultSchema}
    (h : sim.run_simulation s t = .ok r) :
    r = sim.run_node_compromise t ∧ sim.graph.hasNode t = true := by
  unfold Simulator.run_simulation at h
  by_cases h1 : pyStrip (pyLower s) ∉ SUPPORTED_SCENARIOS
  · rw [if_pos h1] at h
    cases h
  · rw [if_neg h1] at h
    by_cases h2 : sim.graph.hasNode t = false
    · rw [if_pos h2] at h
      cases h
    · rw [if_neg h2] at h
      have h3 : pyStrip (pyLower s) = "node_compromise" := by
        push_neg at h1
        simpa [SUPPORTED_SCENARIOS] using h1
      rw [if_pos h3] at h
      refine ⟨(Except.ok.inj h).symm, ?_⟩
      cases hb : sim.graph.hasNode t
      · exact absurd hb h2
      · rfl

theorem single_digit_length : ∀ m : ℕ, m < 10 → (toString m).length = 1 := by decide

/-- **C8.** For every successful simulation run, the explanation is the
single summary string that names the target component, contains either the
count of downstream components the compromise propagated to or the
isolated-node clause (according to whether anything beyond the target is
affected), and reports the baseline score, the compromised score and the
absolute percentage-point degradation each formatted to one decimal place
(`fmt1` always renders exactly one digit after the point). -/
theorem c8_explanation_spec (sim : Simulator) (s t : String) (r : SimulationResultSchema)
    (h : sim.run_simulation s t = .ok r) :
    (∃ propClause,
      r.explanation
        = "Node compromise on '" ++ sim.graph.getName t ++ "'." ++ propClause
            ++ " Mission success score degraded from " ++ fmt1 r.baseline_score
            ++ "% to " ++ fmt1 r.compromised_score ++ "% (–"
            ++ fmt1 |r.baseline_score - r.compromised_score| ++ " percentage points)."
      ∧ (sim.propagate_compromise t \ {t} ≠ ∅ →
          propClause = propagationClause (sim.propagate_compromise t \ {t}).card)
      ∧ (sim.propagate_compromise t \ {t} = ∅ → propClause = isolationClause)) ∧
    (∀ q : ℚ, ∃ n : ℤ, fmt1 q = toString (n / 10) ++ "." ++ toString (n.toNat % 10)
      ∧ (toString (n.toNat % 10)).length = 1) := by
  rcases run_simulation_ok_eq h with ⟨hr, _⟩
  constructor
  · have hexp : r.explanation
        = sim.build_explanation t (sim.propagate_compromise t) r.baseline_score
            r.compromised_score := by
      rw [hr]
      rfl
    have hb : r.baseline_score = sim.calculate_mission_score ∅ := by rw [hr]; rfl
    have hc : r.compromised_score
        = sim.calculate_mission_score (sim.propagate_compromise t) := by rw [hr]; rfl
    refine ⟨if sim.propagate_compromise t \ {t} ≠ ∅ then
        propagationClause (sim.propagate_compromise t \ {t}).card else isolationClause,
      ?_, ?_, ?_⟩
    · rw [hexp]
      by_cases hne : sim.propagate_compromise t \ {t} ≠ ∅
      · simp only [Simulator.build_explanation, if_pos hne]
      · simp only [Simulator.build_explanation, if_neg hne]
    · intro hne
      rw [if_pos hne]
    · intro heq
      rw [if_neg (not_not_intro heq)]
  · intro q
    refine ⟨rndHalfEven (q * 10), rfl, ?_⟩
    exact single_digit_length _ (Nat.mod_lt _ (by omega))

/-- Witness for C8 on the linear fixture (run on target `A`): the theorem
applies to the concrete successful run. -/
theorem c8_witness :
    (∃ r, simLinear.run_simulation "node_compromise" "A" = .ok r) ∧
    (∀ r, simLinear.run_simulation "node_compromise" "A" = .ok r →
      ∃ propClause,
        r.explanation
          = "Node compromise on '" ++ simLinear.graph.getName "A" ++ "'." ++ propClause
              ++ " Mission success score degraded from " ++ fmt1 r.baseline_score
              ++ "% to " ++ fmt1 r.compromised_score ++ "% (–"
              ++ fmt1 |r.baseline_score - r.compromised_score| ++ " percentage points)."
        ∧ (simLinear.propagate_compromise "A" \ {"A"} ≠ ∅ →
            propClause
              = propagationClause (simLinear.propagate_compromise "A" \ {"A"}).card)
        ∧ (simLinear.propagate_compromise "A" \ {"A"} = ∅ →
            propClause = isolationClause)) := by
  refine ⟨⟨simLinear.run_node_compromise "A", rfl⟩, ?_⟩
  intro r hr
  exact (c8_explanation_spec simLinear "node_compromise" "A" r hr).1

/-! ### C6: ordering of `affected_components` -/

theorem lift_sortStr_mem (m : Multiset String) (x : String) :
    x ∈ Quot.liftOn m sortStr (fun _ _ h => sortStr_perm_invariant h) ↔ x ∈ m := by
  induction m using Quotient.inductionOn with
  | h l =>
    show x ∈ sortStr l ↔ _
    rw [(sortStr_perm l).mem_iff]
    exact (Multiset.mem_coe).symm

theorem lift_sortStr_nodup (m : Multiset String) :
    m.Nodup → (Quot.liftOn m sortStr (fun _ _ h => sortStr_perm_invariant h)).Nodup := by
  induction m using Quotient.inductionOn with
  | h l =>
    intro hm
    show (sortStr l).Nodup
    exact ((sortStr_perm l).nodup_iff).mpr (Multiset.coe_nodup.mp hm)

theorem mem_pySetToList {s : Finset String} {x : String} : x ∈ pySetToList s ↔ x ∈ s :=
  lift_sortStr_mem s.val x

theorem pySetToList_nodup (s : Finset String) : (pySetToList s).Nodup :=
  lift_sortStr_nodup s.val s.nodup

theorem pySetToList_toFinset (s : Finset String) : (pySetToList s).toFinset = s := by
  ext x
  rw [List.mem_toFinset, mem_pySetToList]

theorem hasNode_eq_true_iff (g : DiGraph) (x : String) :
    g.hasNode x = true ↔ x ∈ g.nodeIds := by
  unfold DiGraph.hasNode
  rw [List.contains_iff_exists_mem_beq]
  constructor
  · rintro ⟨y, hy, hbeq⟩
    have : x = y := by simpa using hbeq
    exact this ▸ hy
  · intro hx
    exact ⟨x, hx, by simp⟩

theorem addFlows_ok_edge_endpoints {ids : List String} {fs : List DataFlowSchema} :
    ∀ {g g' : DiGraph}, addFlows ids g fs = .ok g' →
      ∀ k ∈ g'.edgeKeys, k ∈ g.edgeKeys ∨ (k.1 ∈ ids ∧ k.2 ∈ ids) := by
  induction fs with
  | nil =>
    intro g g' h k hk
    simp only [addFlows] at h
    cases h
    exact Or.inl hk
  | cons f fs ih =>
    intro g g' h k hk
    simp only [addFlows] at h
    by_cases hs : f.source ∈ ids
    · by_cases ht : f.target ∈ ids
      · rw [if_neg (by simpa using hs), if_neg (by simpa using ht)] at h
        rcases ih h k hk with hk' | hk'
        · rw [addEdge_edgeKeys_cases] at hk'
          by_cases hkk : (f.source, f.target) ∈ g.edgeKeys
          · rw [if_pos hkk] at hk'
            exact Or.inl hk'
          · rw [if_neg hkk] at hk'
            rcases List.mem_append.mp hk' with hk'' | hk''
            · exact Or.inl hk''
            · have : k = (f.source, f.target) := by simpa using hk''
              exact Or.inr ⟨by rw [this]; exact hs, by rw [this]; exact ht⟩
        · exact Or.inr hk'
      · rw [if_neg (by simpa using hs), if_pos (by simpa using ht)] at h
        cases h
    · rw [if_pos (by simpa using hs)] at h
      cases h

/-- Built graphs have no ghost nodes: every stored edge endpoint is a node. -/
theorem mkSimulator_edge_endpoints {arch : ArchitectureSchema} {sim : Simulator}
    (h : mkSimulator arch = .ok sim) :
    ∀ k ∈ sim.graph.edgeKeys, k.1 ∈ sim.graph.nodeIds ∧ k.2 ∈ sim.graph.nodeIds := by
  intro k hk
  unfold mkSimulator at h
  by_cases he : arch.components.isEmpty
  · rw [if_pos he] at h; cases h
  · rw [if_neg he] at h
    unfold buildGraph at h
    cases hb : addFlows (arch.components.map (fun c => c.id))
        (addComponents ⟨[], []⟩ arch.components) arch.flows with
    | error e => rw [hb] at h; cases h
    | ok g' =>
      rw [hb] at h
      cases h
      rcases addFlows_ok_edge_endpoints hb k hk with hk' | hk'
      · have : (addComponents (⟨[], []⟩ : DiGraph) arch.components).edgeKeys = [] := by
          unfold DiGraph.edgeKeys
          rw [addComponents_edges]
          rfl
        rw [this] at hk'
        cases hk'
      · constructor
        · refine (mkSimulator_nodeIds_set ?_ k.1).mpr hk'.1
          unfold mkSimulator buildGraph
          rw [if_neg he, hb]
          rfl
        · refine (mkSimulator_nodeIds_set ?_ k.2).mpr hk'.2
          unfold mkSimulator buildGraph
          rw [if_neg he, hb]
          rfl

/-- For a built simulator the propagated set stays inside the graph's
nodes. -/
theorem propagate_subset_nodeIds {arch : ArchitectureSchema} {sim : Simulator}
    (h : mkSimulator arch = .ok sim) (t : String) :
    ∀ x ∈ sim.propagate_compromise t, x ∈ sim.graph.nodeIds := by
  intro x hx
  unfold Simulator.propagate_compromise at hx
  by_cases ht : sim.graph.hasNode t
  · rw [if_pos ht] at hx
    rcases Finset.mem_union.mp hx with hx | hx
    · have hx' := (Finset.mem_sdiff.mp hx).1
      have := reachIter_subset_univ sim.graph t sim.graph.edges.length hx'
      rcases Finset.mem_insert.mp this with hx'' | hx''
      · rw [hx'']
        exact (hasNode_eq_true_iff _ _).mp ht
      · rcases List.mem_map.mp (List.mem_toFinset.mp hx'') with ⟨e, he, hev⟩
        have := (mkSimulator_edge_endpoints h e.1 (List.mem_map.mpr ⟨e, he, rfl⟩)).2
        rw [← hev]
        exact this
    · rw [Finset.mem_singleton.mp hx]
      exact (hasNode_eq_true_iff _ _).mp ht
  · rw [if_neg ht] at hx
    cases hx

/-- Architecture with flow B -> A: compromising B affects both nodes, and
the set's canonical iteration order lists A before the target B. -/
def archC6 : ArchitectureSchema :=
  { id := some 1, name := "C6",
    components := [compW "A" "A" ("Sensor") 5, compW "B" "B" ("Compute") 5],
    flows := [flowW "B" "A"] }

/-- The built simulator for `archC6`. -/
def simC6 : Simulator := simOfD archC6

/-- **C6 counterexample.** Running `node_compromise` on target `B` of the
graph `B -> A` yields `affected_components = ["A", "B"]`: the head of the
list is `A`, not the target `B`, so the list is not ordered target-first
(Python lists a set in hash-table order — modelled canonically as the
ascending order of the elements — which is unrelated to the target or to
discovery order). -/
theorem c6_counterexample :
    (simC6.run_simulation "node_compromise" "B").map (fun r => r.affected_components)
        = .ok ["A", "B"]
    ∧ (simC6.run_simulation "node_compromise" "B").map
        (fun r => r.affected_components.head?) = .ok (some "A")
    ∧ ("A" : String) ≠ "B" := by
  refine ⟨rfl, rfl, by decide⟩

/-- **C6 amended.** For every successful `node_compromise` run on a built
simulator: `affected_components` lists exactly the propagated affected set,
each id exactly once, in Python set-iteration order (a function of the
set's contents, with no target-first or discovery-order guarantee), and
`affected_component_names` is the parallel list giving, position by
position, the display name of the component at the same position. -/
theorem c6_affected_components_amended (arch : ArchitectureSchema) (sim : Simulator)
    (hsim : mkSimulator arch = .ok sim) (s t : String) (r : SimulationResultSchema)
    (hrun : sim.run_simulation s t = .ok r) :
    r.affected_components = pySetToList (sim.propagate_compromise t) ∧
    r.affected_components.toFinset = sim.propagate_compromise t ∧
    r.affected_components.Nodup ∧
    r.affected_component_names
      = r.affected_components.map (fun nid => sim.graph.getName nid) ∧
    r.affected_component_names.length = r.affected_components.length := by
  rcases run_simulation_ok_eq hrun with ⟨hr, _⟩
  have hcomp : r.affected_components = pySetToList (sim.propagate_compromise t) := by
    rw [hr]
    rfl
  have hfilter : (pySetToList (sim.propagate_compromise t)).filter
      (fun nid => sim.graph.hasNode nid) = pySetToList (sim.propagate_compromise t) := by
    rw [List.filter_eq_self]
    intro x hx
    exact (hasNode_eq_true_iff _ _).mpr
      (propagate_subset_nodeIds hsim t x (mem_pySetToList.mp hx))
  have hnames : r.affected_component_names
      = r.affected_components.map (fun nid => sim.graph.getName nid) := by
    rw [hr]
    show ((pySetToList (sim.propagate_compromise t)).filter
        (fun nid => sim.graph.hasNode nid)).map (fun nid => sim.graph.getName nid) = _
    rw [hfilter]
    rfl
  refine ⟨hcomp, ?_, ?_, hnames, ?_⟩
  · rw [hcomp, pySetToList_toFinset]
  · rw [hcomp]
    exact pySetToList_nodup _
  · rw [hnames, List.length_map]

/-- Witness for C6's amended claim at the concrete `B -> A` fixture. -/
theorem c6_witness :
    (mkSimulator archC6 = .ok simC6
      ∧ simC6.run_simulation "node_compromise" "B"
          = .ok (simC6.run_node_compromise "B"))
    ∧ (simC6.run_node_compromise "B").affected_components.toFinset
        = simC6.propagate_compromise "B"
    ∧ (simC6.run_node_compromise "B").affected_component_names
        = (simC6.run_node_compromise "B").affected_components.map
            (fun nid => simC6.graph.getName nid) := by
  have h := c6_affected_components_amended archC6 simC6 rfl "node_compromise" "B"
    (simC6.run_node_compromise "B") rfl
  exact ⟨⟨rfl, rfl⟩, h.2.1, h.2.2.2.1⟩

end MissionSim
